import Mathlib

/-!
Shallow embedding of the shift-schedule feasibility engine
(TypeScript sources under `src/`) and proofs about its constraint model.

Modelling conventions, chosen once and used throughout:

* Dates. The source passes dates as `yyyy-MM-dd` strings and as JS `Int`
  values, converting with `parseISO`/`format`/`addDays`. For four-digit
  years that string form is in order- and equality-preserving bijection
  with the integer "days since 1970-01-01", so a date is embedded as an
  `Int` day number; `addDays d k` becomes `d + k`, string equality becomes
  `Int` equality, `localeCompare` ordering becomes `Int` ordering, and
  JS `getDay` (0 = Sunday) becomes `(d + 4) % 7` because 1970-01-01 was a
  Thursday.  Concrete dates used below: 2025-01-06 (a Monday) is 20094.
* Numbers. JS `number` values that are used as integers (counts, limits,
  work hours) are embedded as `Int` or `Nat`; the completeness ratios and
  the weekend-fairness average, the only fractional values, are embedded
  as `ℚ` (exact arithmetic in place of IEEE doubles; all quantities here
  are small integer ratios, where the two agree).  Quotients are written
  with `mkRat`, which agrees with `(· / ·)` on ℚ in every case, the zero
  denominator included.
* Violations. The `message` and the human-facing `description` strings are
  presentation-only (no code branches on them) and are omitted from the
  embedded records; `constraintId`, `constraintName`, `severity` and the
  whole `context` object are kept.  `checkedAt` (wall-clock) is omitted.
* `array.sort(cmp)` is embedded as a stable insertion sort; JS engines
  guarantee stability, and all ordering-sensitive proofs additionally
  assume the per-staff dates are pairwise distinct, where any sort agrees.
* `a ?? b` on an absent property is embedded with `Option`.
-/

namespace ShiftSchedule

/-- The four shift states (`ShiftType` in `types/schedule.ts`). -/
inductive Shift where
  | D
  | E
  | N
  | OFF
deriving DecidableEq, Repr

/-- Violation severity (`Severity` in `types/constraint.ts`). -/
inductive Severity where
  | error
  | warning
deriving DecidableEq, Repr

/-- Hard/soft classification (`ConstraintSeverity` in `types/constraint.ts`),
also used for the registry's `severityType` field. -/
inductive ConstraintSeverityType where
  | hard
  | soft
deriving DecidableEq, Repr

/-- One cell of the roster (`ShiftAssignment`).  The `locked` flag is kept
for fidelity though no constraint reads it. -/
structure ShiftAssignment where
  staffId : String
  date : Int
  shift : Shift
  locked : Option Bool := none
deriving DecidableEq, Repr

/-- A staff member.  `juhuDay` is the weekly legal off-day (JS `getDay`
convention, 0 = Sunday); `none` embeds the source variant where the field
is absent, in which case comparisons against it are always false. -/
structure Staff where
  id : String
  name : String
  juhuDay : Option Int := none
deriving DecidableEq, Repr

/-- The 28-day schedule (`Schedule`); `id`/`name` metadata omitted. -/
structure Schedule where
  startDate : Int
  assignments : List ShiftAssignment
deriving DecidableEq, Repr

/-- Min/max staffing requirement for one shift type. -/
structure StaffingRequirement where
  min : Int
  max : Int
deriving DecidableEq, Repr

/-- Per-day staffing requirements. -/
structure DailyStaffing where
  day : StaffingRequirement
  evening : StaffingRequirement
  night : StaffingRequirement
deriving DecidableEq, Repr

/-- The `enabledConstraints` record: exactly the six hard-constraint keys. -/
structure EnabledConstraints where
  shiftOrder : Bool
  nightOffDay : Bool
  consecutiveNight : Bool
  monthlyNight : Bool
  staffing : Bool
  weeklyOff : Bool
deriving DecidableEq, Repr

/-- The `constraintSeverity` record: exactly the six hard-constraint keys
(the current `types/constraint.ts`; in particular there is no `juhu` key). -/
structure ConstraintSeverityMap where
  shiftOrder : ConstraintSeverityType
  nightOffDay : ConstraintSeverityType
  consecutiveNight : ConstraintSeverityType
  monthlyNight : ConstraintSeverityType
  staffing : ConstraintSeverityType
  weeklyOff : ConstraintSeverityType
deriving DecidableEq, Repr

/-- Soft-constraint item with only the `enabled` flag. -/
structure SoftFlag where
  enabled : Bool
deriving DecidableEq, Repr

/-- Soft-constraint item with `enabled` and a `maxDays` parameter; the
checks read it with `?? default`, hence the `Option`. -/
structure SoftMaxDays where
  enabled : Bool
  maxDays : Option Int := none
deriving DecidableEq, Repr

/-- Soft-constraint item with `enabled` and `minBlockSize`. -/
structure SoftMinBlock where
  enabled : Bool
  minBlockSize : Option Int := none
deriving DecidableEq, Repr

/-- Soft-constraint item with `enabled` and `maxOff`. -/
structure SoftMaxOff where
  enabled : Bool
  maxOff : Option Int := none
deriving DecidableEq, Repr

/-- The `softConstraints` record (`SoftConstraintConfig`). -/
structure SoftConstraintConfig where
  maxConsecutiveWork : SoftMaxDays
  nightBlockPolicy : SoftMinBlock
  maxPeriodOff : SoftMaxOff
  maxConsecutiveOff : SoftMaxDays
  gradualShiftProgression : SoftFlag
  maxSameShiftConsecutive : SoftFlag
  restClustering : SoftFlag
  postRestDayShift : SoftFlag
  weekendFairness : SoftFlag
  shiftContinuity : SoftFlag
deriving DecidableEq, Repr

/-- The full constraint configuration (`ConstraintConfig`). -/
structure ConstraintConfig where
  maxConsecutiveNights : Int
  monthlyNightsRequired : Int
  weeklyWorkHours : Nat
  weekdayStaffing : DailyStaffing
  weekendStaffing : DailyStaffing
  enabledConstraints : EnabledConstraints
  constraintSeverity : ConstraintSeverityMap
  softConstraints : SoftConstraintConfig
deriving DecidableEq, Repr

/-- The `context` object carried on a violation. -/
structure ViolationContext where
  staffId : Option String := none
  staffName : Option String := none
  date : Option Int := none
  dates : Option (List Int) := none
deriving DecidableEq, Repr

/-- A constraint violation (`Violation`); `message` omitted, see header. -/
structure Violation where
  constraintId : String
  constraintName : String
  severity : Severity
  context : ViolationContext
deriving DecidableEq, Repr

/-- Result of one constraint check (`ConstraintResult`). -/
structure ConstraintResult where
  satisfied : Bool
  violations : List Violation
deriving DecidableEq, Repr

/-- The evaluation context handed to every constraint (`ConstraintContext`). -/
structure ConstraintContext where
  schedule : Schedule
  staff : List Staff
  config : ConstraintConfig
  previousPeriodEnd : List ShiftAssignment
  scheduleCompleteness : ℚ

/-- A registry entry (`Constraint` in `constraints/types.ts`); the
`description` string is omitted (presentation only). -/
structure Constraint where
  id : String
  name : String
  severityType : ConstraintSeverityType
  check : ConstraintContext → ConstraintResult

/-- Result of a full feasibility evaluation (`FeasibilityResult`);
`checkedAt` omitted. -/
structure FeasibilityResult where
  feasible : Bool
  violations : List Violation
deriving DecidableEq, Repr

/-- JS `getDay` (0 = Sunday): 1970-01-01 was a Thursday (`getDay = 4`). -/
def dayOfWeek (d : Int) : Int :=
  (d + 4) % 7

/-- date-fns `isWeekend`. -/
def isWeekend (d : Int) : Bool :=
  dayOfWeek d == 0 || dayOfWeek d == 6

/-- The shared helper defined at the top of most constraint files:
first assignment for the given staff and date, if any. -/
def getShiftForStaffOnDate (assignments : List ShiftAssignment)
    (staffId : String) (date : Int) : Option Shift :=
  (assignments.find? fun a => a.staffId == staffId && a.date == date).map (·.shift)

/-- Property access `config.constraintSeverity?.[constraintId]` by name:
the record has exactly six properties, every other name yields `undefined`. -/
def severityLookup (m : ConstraintSeverityMap) : String → Option ConstraintSeverityType
  | "shiftOrder" => some m.shiftOrder
  | "nightOffDay" => some m.nightOffDay
  | "consecutiveNight" => some m.consecutiveNight
  | "monthlyNight" => some m.monthlyNight
  | "staffing" => some m.staffing
  | "weeklyOff" => some m.weeklyOff
  | _ => none

/-- `getSeverityFromConfig` (`constraints/types.ts`):
`config.constraintSeverity?.[constraintId] ?? 'hard'`, then
hard ↦ error, soft ↦ warning. -/
def getSeverityFromConfig (config : ConstraintConfig) (constraintId : String) : Severity :=
  match (severityLookup config.constraintSeverity constraintId).getD .hard with
  | .hard => .error
  | .soft => .warning

/-- `calculateScheduleCompleteness` (`utils/shiftUtils.ts`). -/
def calculateScheduleCompleteness (assignments : List ShiftAssignment)
    (staffCount : Nat) (periodDays : Nat := 28) : ℚ :=
  let totalSlots := staffCount * periodDays
  if totalSlots = 0 then 0 else mkRat assignments.length totalSlots

/-- Stable insert for a descending-by-date order (JS
`sort((a, b) => b.date.localeCompare(a.date))`): the new element goes
after every element whose date is ≥ its own. -/
def insertDesc (a : ShiftAssignment) : List ShiftAssignment → List ShiftAssignment
  | [] => [a]
  | b :: l => if b.date < a.date then a :: b :: l else b :: insertDesc a l

/-- Stable descending-by-date sort. -/
def sortDesc (l : List ShiftAssignment) : List ShiftAssignment :=
  l.foldl (fun acc a => insertDesc a acc) []

/-- Stable insert for an ascending-by-date order (JS
`sort((a, b) => a.date.localeCompare(b.date))`). -/
def insertAsc (a : ShiftAssignment) : List ShiftAssignment → List ShiftAssignment
  | [] => [a]
  | b :: l => if a.date < b.date then a :: b :: l else b :: insertAsc a l

/-- Stable ascending-by-date sort. -/
def sortAsc (l : List ShiftAssignment) : List ShiftAssignment :=
  l.foldl (fun acc a => insertAsc a acc) []

/-- The 28 dates of the current period, in order (`for i in 0..27`). -/
def periodDates (startDate : Int) : List Int :=
  (List.range 28).map fun (i : Nat) => startDate + (i : Int)

/-! ### `constraints/shiftOrder.ts` -/

/-- Forbidden day-to-day transitions: N→D, N→E, E→D. -/
def FORBIDDEN_TRANSITIONS : List (Shift × Shift) :=
  [(.N, .D), (.N, .E), (.E, .D)]

/-- `isForbiddenTransition`. -/
def isForbiddenTransition (f t : Shift) : Bool :=
  FORBIDDEN_TRANSITIONS.any fun p => p.1 == f && p.2 == t

/-- Violation record emitted by `shift-order`. -/
def mkShiftOrderViolation (sev : Severity) (sm : Staff) (date : Int) : Violation :=
  { constraintId := "shift-order", constraintName := "역순금지", severity := sev,
    context := { staffId := some sm.id, staffName := some sm.name, date := some date } }

/-- Per-staff body of the `shift-order` check: the boundary transition
(last previous-period day → day 0) followed by the 27 in-period pairs.
Both parts read `schedule.assignments` only, as in the source. -/
def shiftOrderStaffViolations (schedule : Schedule) (previousPeriodEnd : List ShiftAssignment)
    (sev : Severity) (sm : Staff) : List Violation :=
  let boundary :=
    if previousPeriodEnd.length > 0 then
      match (sortAsc (previousPeriodEnd.filter fun a => a.staffId == sm.id)).getLast? with
      | some lastPrev =>
        match getShiftForStaffOnDate schedule.assignments sm.id schedule.startDate with
        | some firstCurrentShift =>
          if isForbiddenTransition lastPrev.shift firstCurrentShift then
            [mkShiftOrderViolation sev sm schedule.startDate]
          else []
        | none => []
      | none => []
    else []
  let inner := (List.range 27).filterMap fun (i : Nat) =>
    let currentDate := schedule.startDate + (i : Int)
    let nextDate := schedule.startDate + (i : Int) + 1
    match getShiftForStaffOnDate schedule.assignments sm.id currentDate,
          getShiftForStaffOnDate schedule.assignments sm.id nextDate with
    | some currentShift, some nextShift =>
      if isForbiddenTransition currentShift nextShift then
        some (mkShiftOrderViolation sev sm nextDate)
      else none
    | _, _ => none
  boundary ++ inner

/-- `shiftOrderConstraint`. -/
def shiftOrderConstraint : Constraint where
  id := "shift-order"
  name := "역순금지"
  severityType := .hard
  check ctx :=
    let severity := getSeverityFromConfig ctx.config "shiftOrder"
    let violations :=
      ctx.staff.flatMap (shiftOrderStaffViolations ctx.schedule ctx.previousPeriodEnd severity)
    ⟨violations.length == 0, violations⟩

/-! ### `constraints/nightOffDay.ts` -/

/-- Violation record emitted by `night-off-day`. -/
def mkNightOffDayViolation (sev : Severity) (sm : Staff) (d1 d2 d3 : Int) : Violation :=
  { constraintId := "night-off-day", constraintName := "N→Off→D 금지", severity := sev,
    context := { staffId := some sm.id, staffName := some sm.name,
                 dates := some [d1, d2, d3] } }

/-- Per-staff body of the `night-off-day` check: three-day windows at
offsets `-2, …, 27` (`for offset = -2; offset < 28`), reported only when
the D lies inside the current period. -/
def nightOffDayStaffViolations (schedule : Schedule) (allAssignments : List ShiftAssignment)
    (sev : Severity) (sm : Staff) : List Violation :=
  (List.range 30).filterMap fun (k : Nat) =>
    let offset : Int := (k : Int) - 2
    let day1Date := schedule.startDate + offset
    let day2Date := schedule.startDate + offset + 1
    let day3Date := schedule.startDate + offset + 2
    let day1Shift := getShiftForStaffOnDate allAssignments sm.id day1Date
    let day2Shift := getShiftForStaffOnDate allAssignments sm.id day2Date
    let day3Shift := getShiftForStaffOnDate allAssignments sm.id day3Date
    if day1Shift == some .N && day2Shift == some .OFF && day3Shift == some .D then
      if schedule.startDate ≤ day3Date && day3Date < schedule.startDate + 28 then
        some (mkNightOffDayViolation sev sm day1Date day2Date day3Date)
      else none
    else none

/-- `nightOffDayConstraint`. -/
def nightOffDayConstraint : Constraint where
  id := "night-off-day"
  name := "N→Off→D 금지"
  severityType := .hard
  check ctx :=
    let severity := getSeverityFromConfig ctx.config "nightOffDay"
    let allAssignments := ctx.previousPeriodEnd ++ ctx.schedule.assignments
    let violations :=
      ctx.staff.flatMap (nightOffDayStaffViolations ctx.schedule allAssignments severity)
    ⟨violations.length == 0, violations⟩

/-! ### `constraints/consecutiveNight.ts` -/

/-- Shared loop of `countTrailingNights` / `countTrailingOffDays`: walk the
descending-sorted previous-period assignments, matching each against the
expected date; a matching `target` shift extends the chain, a matching
other shift breaks (`break`), a non-matching date is skipped
("assignments might not be dense"). -/
def countTrailingGo (target : Shift) : List ShiftAssignment → Int → Nat
  | [], _ => 0
  | a :: as, expectedDate =>
    if a.date == expectedDate && a.shift == target then
      1 + countTrailingGo target as (expectedDate - 1)
    else if a.date == expectedDate then 0
    else countTrailingGo target as expectedDate

/-- Shared loop of `findConsecutiveNightStart` / `findConsecutiveOffStart`:
same walk, remembering the last chained date. -/
def findTrailingStartGo (target : Shift) :
    List ShiftAssignment → Int → Option Int → Option Int
  | [], _, last => last
  | a :: as, expectedDate, last =>
    if a.date == expectedDate && a.shift == target then
      findTrailingStartGo target as (expectedDate - 1) (some expectedDate)
    else if a.date == expectedDate then last
    else findTrailingStartGo target as expectedDate last

/-- `countTrailingNights`: consecutive N shifts ending the day before
`periodStartDate`. -/
def countTrailingNights (previousAssignments : List ShiftAssignment)
    (staffId : String) (periodStartDate : Int) : Nat :=
  countTrailingGo .N
    (sortDesc (previousAssignments.filter fun a => a.staffId == staffId))
    (periodStartDate - 1)

/-- `findConsecutiveNightStart`. -/
def findConsecutiveNightStart (previousAssignments : List ShiftAssignment)
    (staffId : String) (periodStartDate : Int) : Option Int :=
  findTrailingStartGo .N
    (sortDesc (previousAssignments.filter fun a => a.staffId == staffId))
    (periodStartDate - 1) none

/-- Violation record emitted by `consecutive-night`. -/
def mkConsecutiveNightViolation (sev : Severity) (sm : Staff) (d : Int)
    (startD : Option Int) : Violation :=
  { constraintId := "consecutive-night", constraintName := "연속나이트", severity := sev,
    context := { staffId := some sm.id, staffName := some sm.name, date := some d,
                 dates := some (match startD with | some s => [s, d] | none => [d]) } }

/-- In-period loop of `consecutive-night`: thread the running count and
streak start through the 28 days; any non-N day (or unassigned day)
resets; emit on each day whose count exceeds the limit. -/
def consecutiveNightGo (allAssignments : List ShiftAssignment) (sm : Staff)
    (sev : Severity) (maxConsecutive : Int) :
    List Int → Nat → Option Int → List Violation
  | [], _, _ => []
  | d :: ds, consecutiveCount, consecutiveStartDate =>
    match getShiftForStaffOnDate allAssignments sm.id d with
    | some .N =>
      let startD := if consecutiveCount = 0 then some d else consecutiveStartDate
      let count := consecutiveCount + 1
      let rest := consecutiveNightGo allAssignments sm sev maxConsecutive ds count startD
      if (count : Int) > maxConsecutive then
        mkConsecutiveNightViolation sev sm d startD :: rest
      else rest
    | _ => consecutiveNightGo allAssignments sm sev maxConsecutive ds 0 none

/-- `consecutiveNightConstraint`. -/
def consecutiveNightConstraint : Constraint where
  id := "consecutive-night"
  name := "연속나이트"
  severityType := .hard
  check ctx :=
    let severity := getSeverityFromConfig ctx.config "consecutiveNight"
    let maxConsecutive := ctx.config.maxConsecutiveNights
    let allAssignments := ctx.previousPeriodEnd ++ ctx.schedule.assignments
    let violations := ctx.staff.flatMap fun staffMember =>
      let prevNightCount :=
        countTrailingNights ctx.previousPeriodEnd staffMember.id ctx.schedule.startDate
      let consecutiveStartDate :=
        if prevNightCount > 0 then
          findConsecutiveNightStart ctx.previousPeriodEnd staffMember.id ctx.schedule.startDate
        else none
      consecutiveNightGo allAssignments staffMember severity maxConsecutive
        (periodDates ctx.schedule.startDate) prevNightCount consecutiveStartDate
    ⟨violations.length == 0, violations⟩

/-! ### `constraints/monthlyNight.ts` -/

/-- Per-staff shift counts (`countShiftsByType` in `utils/shiftUtils.ts`). -/
structure ShiftCounts where
  D : Nat
  E : Nat
  N : Nat
  OFF : Nat
deriving DecidableEq, Repr

/-- `countShiftsByType`. -/
def countShiftsByType (assignments : List ShiftAssignment) (staffId : String) : ShiftCounts :=
  assignments.foldl (fun counts a =>
    if a.staffId == staffId then
      match a.shift with
      | .D => { counts with D := counts.D + 1 }
      | .E => { counts with E := counts.E + 1 }
      | .N => { counts with N := counts.N + 1 }
      | .OFF => { counts with OFF := counts.OFF + 1 }
    else counts) ⟨0, 0, 0, 0⟩

/-- `monthlyNightConstraint`: the per-staff N count must equal
`monthlyNightsRequired`. -/
def monthlyNightConstraint : Constraint where
  id := "monthly-night"
  name := "월간나이트"
  severityType := .soft
  check ctx :=
    let severity := getSeverityFromConfig ctx.config "monthlyNight"
    let required := ctx.config.monthlyNightsRequired
    let violations := ctx.staff.filterMap fun staffMember =>
      let counts := countShiftsByType ctx.schedule.assignments staffMember.id
      let nightCount := counts.N
      if (nightCount : Int) != required then
        some { constraintId := "monthly-night", constraintName := "월간나이트",
               severity := severity,
               context := { staffId := some staffMember.id,
                            staffName := some staffMember.name } }
      else none
    ⟨violations.length == 0, violations⟩

/-! ### `constraints/staffing.ts` -/

/-- Threshold: show staffing errors only when the schedule is ≥ 50% complete. -/
def STAFFING_ERROR_THRESHOLD : ℚ := mkRat 1 2

/-- Number of non-OFF assignments of the given shift type on a date
(the source's one pass over `assignments` incrementing `shiftCounts`). -/
def staffCountOn (assignments : List ShiftAssignment) (date : Int) (t : Shift) : Nat :=
  (assignments.filter fun a => a.date == date && a.shift == t).length

/-- `staffingConstraint`. -/
def staffingConstraint : Constraint where
  id := "staffing"
  name := "최소인원"
  severityType := .hard
  check ctx :=
    if ctx.scheduleCompleteness < STAFFING_ERROR_THRESHOLD then ⟨true, []⟩
    else
      let severity := getSeverityFromConfig ctx.config "staffing"
      let violations := (List.range 28).flatMap fun (i : Nat) =>
        let currentDate := ctx.schedule.startDate + (i : Int)
        let staffingReq :=
          if isWeekend currentDate then ctx.config.weekendStaffing
          else ctx.config.weekdayStaffing
        let shiftTypes : List (Shift × StaffingRequirement) :=
          [(.D, staffingReq.day), (.E, staffingReq.evening), (.N, staffingReq.night)]
        shiftTypes.filterMap fun st =>
          let count := staffCountOn ctx.schedule.assignments currentDate st.1
          if (count : Int) < st.2.min then
            some { constraintId := "staffing", constraintName := "최소인원",
                   severity := severity,
                   context := { date := some currentDate } }
          else none
      ⟨violations.length == 0, violations⟩

/-! ### `constraints/juhu.ts` -/

/-- `juhuConstraint`: every period date on the staff member's `juhuDay`
weekday that carries a non-OFF assignment is a violation.  Note the
severity is resolved with `getSeverityFromConfig(config, 'juhu')`, and
`juhu` is not a key of `constraintSeverity`. -/
def juhuConstraint : Constraint where
  id := "juhu"
  name := "주휴"
  severityType := .soft
  check ctx :=
    let severity := getSeverityFromConfig ctx.config "juhu"
    let violations := ctx.staff.flatMap fun staffMember =>
      (List.range 28).filterMap fun (i : Nat) =>
        let currentDate := ctx.schedule.startDate + (i : Int)
        if some (dayOfWeek currentDate) == staffMember.juhuDay then
          match ctx.schedule.assignments.find?
              (fun a => a.staffId == staffMember.id && a.date == currentDate) with
          | some assignment =>
            if assignment.shift != .OFF then
              some { constraintId := "juhu", constraintName := "주휴", severity := severity,
                     context := { staffId := some staffMember.id,
                                  staffName := some staffMember.name,
                                  date := some currentDate } }
            else none
          | none => none
        else none
    ⟨violations.length == 0, violations⟩

/-! ### `constraints/weeklyOff.ts` -/

/-- Per-week completeness threshold. -/
def WEEKLY_COMPLETENESS_THRESHOLD : ℚ := mkRat 1 2

/-- `calculateMinOffDays`: `7 - Math.ceil(weeklyWorkHours / 8)`. -/
def calculateMinOffDays (weeklyWorkHours : Nat) : Int :=
  let workDaysPerWeek : Nat := (weeklyWorkHours + 7) / 8
  7 - (workDaysPerWeek : Int)

/-- The seven dates of week `week` (0-based) of the period. -/
def weekDatesOf (startDate : Int) (week : Nat) : List Int :=
  (List.range 7).map fun (d : Nat) => startDate + ((week * 7 + d : Nat) : Int)

/-- Violation record emitted by `weekly-off`. -/
def mkWeeklyOffViolation (sev : Severity) (sm : Staff) (weekDates : List Int) : Violation :=
  { constraintId := "weekly-off", constraintName := "주간휴무", severity := sev,
    context := { staffId := some sm.id, staffName := some sm.name,
                 dates := some weekDates } }

/-- The staff member's assignments falling in the given week. -/
def weekAssignmentsOf (schedule : Schedule) (staffId : String) (week : Nat) :
    List ShiftAssignment :=
  schedule.assignments.filter fun a =>
    a.staffId == staffId && (weekDatesOf schedule.startDate week).contains a.date

/-- `weeklyOffConstraint`. -/
def weeklyOffConstraint : Constraint where
  id := "weekly-off"
  name := "주간휴무"
  severityType := .hard
  check ctx :=
    let severity := getSeverityFromConfig ctx.config "weeklyOff"
    let minOffDays := calculateMinOffDays ctx.config.weeklyWorkHours
    let violations := ctx.staff.flatMap fun staffMember =>
      (List.range 4).filterMap fun (week : Nat) =>
        let weekDates := weekDatesOf ctx.schedule.startDate week
        let weekAssignments := weekAssignmentsOf ctx.schedule staffMember.id week
        let weekCompleteness : ℚ := mkRat weekAssignments.length 7
        if weekCompleteness < WEEKLY_COMPLETENESS_THRESHOLD then none
        else
          let offCount := (weekAssignments.filter fun a => a.shift == .OFF).length
          if (offCount : Int) < minOffDays then
            some (mkWeeklyOffViolation severity staffMember weekDates)
          else none
    ⟨violations.length == 0, violations⟩

/-! ### `constraints/maxConsecutiveWork.ts` -/

/-- The `date → shift` JS `Map` built from the staff-filtered previous
period (`Map.set`: the last write for a date wins). -/
def shiftByDate (previousAssignments : List ShiftAssignment)
    (staffId : String) (date : Int) : Option Shift :=
  ((previousAssignments.filter fun a => a.staffId == staffId && a.date == date).getLast?).map
    (·.shift)

/-- Loop of `countTrailingWorkDays`: walk back up to 7 days from the day
before the period start, counting while the map holds a non-OFF shift. -/
def countTrailingWorkGo (previousAssignments : List ShiftAssignment) (staffId : String) :
    Nat → Int → Nat
  | 0, _ => 0
  | fuel + 1, checkDate =>
    match shiftByDate previousAssignments staffId checkDate with
    | some s =>
      if s != .OFF then 1 + countTrailingWorkGo previousAssignments staffId fuel (checkDate - 1)
      else 0
    | none => 0

/-- `countTrailingWorkDays`. -/
def countTrailingWorkDays (previousAssignments : List ShiftAssignment)
    (staffId : String) (periodStartDate : Int) : Nat :=
  countTrailingWorkGo previousAssignments staffId 7 (periodStartDate - 1)

/-- Loop of `findConsecutiveWorkStart`. -/
def findConsecutiveWorkStartGo (previousAssignments : List ShiftAssignment) (staffId : String) :
    Nat → Int → Option Int → Option Int
  | 0, _, last => last
  | fuel + 1, checkDate, last =>
    match shiftByDate previousAssignments staffId checkDate with
    | some s =>
      if s != .OFF then
        findConsecutiveWorkStartGo previousAssignments staffId fuel (checkDate - 1)
          (some checkDate)
      else last
    | none => last

/-- `findConsecutiveWorkStart`. -/
def findConsecutiveWorkStart (previousAssignments : List ShiftAssignment)
    (staffId : String) (periodStartDate : Int) : Option Int :=
  findConsecutiveWorkStartGo previousAssignments staffId 7 (periodStartDate - 1) none

/-- Violation record emitted by `max-consecutive-work`. -/
def mkMaxConsecutiveWorkViolation (sm : Staff) (d : Int) (startD : Option Int) : Violation :=
  { constraintId := "max-consecutive-work", constraintName := "연속근무상한",
    severity := .warning,
    context := { staffId := some sm.id, staffName := some sm.name, date := some d,
                 dates := some (match startD with | some s => [s, d] | none => [d]) } }

/-- In-period loop of `max-consecutive-work`: a work day is an assigned
non-OFF shift; OFF and unassigned days both reset the streak. -/
def maxConsecutiveWorkGo (allAssignments : List ShiftAssignment) (sm : Staff) (maxDays : Int) :
    List Int → Nat → Option Int → List Violation
  | [], _, _ => []
  | d :: ds, consecutiveCount, consecutiveStartDate =>
    let currentShift := getShiftForStaffOnDate allAssignments sm.id d
    let isWorkDay := match currentShift with
      | some s => s != .OFF
      | none => false
    if isWorkDay then
      let startD := if consecutiveCount = 0 then some d else consecutiveStartDate
      let count := consecutiveCount + 1
      let rest := maxConsecutiveWorkGo allAssignments sm maxDays ds count startD
      if (count : Int) > maxDays then mkMaxConsecutiveWorkViolation sm d startD :: rest
      else rest
    else maxConsecutiveWorkGo allAssignments sm maxDays ds 0 none

/-- `maxConsecutiveWorkConstraint`. -/
def maxConsecutiveWorkConstraint : Constraint where
  id := "max-consecutive-work"
  name := "연속근무상한"
  severityType := .soft
  check ctx :=
    let softConfig := ctx.config.softConstraints.maxConsecutiveWork
    if !softConfig.enabled then ⟨true, []⟩
    else
      let maxDays := softConfig.maxDays.getD 5
      let allAssignments := ctx.previousPeriodEnd ++ ctx.schedule.assignments
      let violations := ctx.staff.flatMap fun staffMember =>
        let prevWorkCount :=
          countTrailingWorkDays ctx.previousPeriodEnd staffMember.id ctx.schedule.startDate
        let consecutiveStartDate :=
          if prevWorkCount > 0 then
            findConsecutiveWorkStart ctx.previousPeriodEnd staffMember.id
              ctx.schedule.startDate
          else none
        maxConsecutiveWorkGo allAssignments staffMember maxDays
          (periodDates ctx.schedule.startDate) prevWorkCount consecutiveStartDate
      ⟨violations.length == 0, violations⟩

/-! ### `constraints/nightBlockPolicy.ts` -/

/-- `nightBlockPolicyConstraint`: an N whose two neighbours (resolved over
the merged previous + current assignments) are both non-N is isolated.
`minBlockSize` feeds only the message and is not modelled. -/
def nightBlockPolicyConstraint : Constraint where
  id := "night-block-policy"
  name := "야간블록정책"
  severityType := .soft
  check ctx :=
    let softConfig := ctx.config.softConstraints.nightBlockPolicy
    if !softConfig.enabled then ⟨true, []⟩
    else
      let allAssignments := ctx.previousPeriodEnd ++ ctx.schedule.assignments
      let violations := ctx.staff.flatMap fun staffMember =>
        (List.range 28).filterMap fun (i : Nat) =>
          let currentDate := ctx.schedule.startDate + (i : Int)
          match getShiftForStaffOnDate allAssignments staffMember.id currentDate with
          | some .N =>
            let prevShift :=
              getShiftForStaffOnDate allAssignments staffMember.id (currentDate - 1)
            let nextShift :=
              getShiftForStaffOnDate allAssignments staffMember.id (currentDate + 1)
            let isIsolated := prevShift != some .N && nextShift != some .N
            if isIsolated then
              some { constraintId := "night-block-policy", constraintName := "야간블록정책",
                     severity := .warning,
                     context := { staffId := some staffMember.id,
                                  staffName := some staffMember.name,
                                  date := some currentDate } }
            else none
          | _ => none
      ⟨violations.length == 0, violations⟩

/-! ### `constraints/maxPeriodOff.ts` -/

/-- `maxPeriodOffConstraint`: more than `maxOff` (default 9) OFF days in
the 28-day period. -/
def maxPeriodOffConstraint : Constraint where
  id := "max-period-off"
  name := "주기당 OFF 상한"
  severityType := .soft
  check ctx :=
    let softConfig := ctx.config.softConstraints.maxPeriodOff
    if !softConfig.enabled then ⟨true, []⟩
    else
      let maxOff := softConfig.maxOff.getD 9
      let violations := ctx.staff.filterMap fun staffMember =>
        let offDates := (periodDates ctx.schedule.startDate).filter fun d =>
          getShiftForStaffOnDate ctx.schedule.assignments staffMember.id d == some .OFF
        let offCount := offDates.length
        if (offCount : Int) > maxOff then
          some { constraintId := "max-period-off", constraintName := "주기당 OFF 상한",
                 severity := .warning,
                 context := { staffId := some staffMember.id,
                              staffName := some staffMember.name,
                              date := offDates.getLast?,
                              dates := some offDates } }
        else none
      ⟨violations.length == 0, violations⟩

/-! ### `constraints/maxConsecutiveOff.ts` -/

/-- `countTrailingOffDays`: same walk as `countTrailingNights` with OFF. -/
def countTrailingOffDays (previousAssignments : List ShiftAssignment)
    (staffId : String) (periodStartDate : Int) : Nat :=
  countTrailingGo .OFF
    (sortDesc (previousAssignments.filter fun a => a.staffId == staffId))
    (periodStartDate - 1)

/-- `findConsecutiveOffStart`. -/
def findConsecutiveOffStart (previousAssignments : List ShiftAssignment)
    (staffId : String) (periodStartDate : Int) : Option Int :=
  findTrailingStartGo .OFF
    (sortDesc (previousAssignments.filter fun a => a.staffId == staffId))
    (periodStartDate - 1) none

/-- Violation record emitted by `max-consecutive-off`. -/
def mkMaxConsecutiveOffViolation (sm : Staff) (d : Int) (startD : Option Int) : Violation :=
  { constraintId := "max-consecutive-off", constraintName := "연속 OFF 상한",
    severity := .warning,
    context := { staffId := some sm.id, staffName := some sm.name, date := some d,
                 dates := some (match startD with | some s => [s, d] | none => [d]) } }

/-- In-period loop of `max-consecutive-off`.  Note the asymmetry with
`maxConsecutiveWorkGo`: the count resets only on an *assigned* non-OFF
day (`else if (currentShift !== null)`); an unassigned day keeps the
running count and streak start unchanged. -/
def maxConsecutiveOffGo (allAssignments : List ShiftAssignment) (sm : Staff) (maxDays : Int) :
    List Int → Nat → Option Int → List Violation
  | [], _, _ => []
  | d :: ds, consecutiveCount, consecutiveStartDate =>
    match getShiftForStaffOnDate allAssignments sm.id d with
    | some .OFF =>
      let startD := if consecutiveCount = 0 then some d else consecutiveStartDate
      let count := consecutiveCount + 1
      let rest := maxConsecutiveOffGo allAssignments sm maxDays ds count startD
      if (count : Int) > maxDays then mkMaxConsecutiveOffViolation sm d startD :: rest
      else rest
    | some _ => maxConsecutiveOffGo allAssignments sm maxDays ds 0 none
    | none =>
      maxConsecutiveOffGo allAssignments sm maxDays ds consecutiveCount consecutiveStartDate

/-- `maxConsecutiveOffConstraint`. -/
def maxConsecutiveOffConstraint : Constraint where
  id := "max-consecutive-off"
  name := "연속 OFF 상한"
  severityType := .soft
  check ctx :=
    let softConfig := ctx.config.softConstraints.maxConsecutiveOff
    if !softConfig.enabled then ⟨true, []⟩
    else
      let maxDays := softConfig.maxDays.getD 2
      let allAssignments := ctx.previousPeriodEnd ++ ctx.schedule.assignments
      let violations := ctx.staff.flatMap fun staffMember =>
        let prevOffCount :=
          countTrailingOffDays ctx.previousPeriodEnd staffMember.id ctx.schedule.startDate
        let consecutiveStartDate :=
          if prevOffCount > 0 then
            findConsecutiveOffStart ctx.previousPeriodEnd staffMember.id
              ctx.schedule.startDate
          else none
        maxConsecutiveOffGo allAssignments staffMember maxDays
          (periodDates ctx.schedule.startDate) prevOffCount consecutiveStartDate
      ⟨violations.length == 0, violations⟩

/-! ### `constraints/gradualShiftProgression.ts` -/

/-- Violation record emitted by `gradual-shift-progression`. -/
def mkGradualViolation (sm : Staff) (d : Int) : Violation :=
  { constraintId := "gradual-shift-progression", constraintName := "점진적전환",
    severity := .warning,
    context := { staffId := some sm.id, staffName := some sm.name, date := some d } }

/-- `gradualShiftProgressionConstraint`: D→N transitions, including the
previous-period boundary. -/
def gradualShiftProgressionConstraint : Constraint where
  id := "gradual-shift-progression"
  name := "점진적전환"
  severityType := .soft
  check ctx :=
    let softConfig := ctx.config.softConstraints.gradualShiftProgression
    if !softConfig.enabled then ⟨true, []⟩
    else
      let allAssignments := ctx.previousPeriodEnd ++ ctx.schedule.assignments
      let violations := ctx.staff.flatMap fun staffMember =>
        let boundary :=
          if ctx.previousPeriodEnd.length > 0 then
            match (sortAsc (ctx.previousPeriodEnd.filter
                fun a => a.staffId == staffMember.id)).getLast? with
            | some lastPrev =>
              match getShiftForStaffOnDate ctx.schedule.assignments staffMember.id
                  ctx.schedule.startDate with
              | some .N =>
                if lastPrev.shift == .D then
                  [mkGradualViolation staffMember ctx.schedule.startDate]
                else []
              | _ => []
            | none => []
          else []
        let inner := (List.range 27).filterMap fun (i : Nat) =>
          let currentDate := ctx.schedule.startDate + (i : Int)
          let nextDate := ctx.schedule.startDate + (i : Int) + 1
          let currentShift := getShiftForStaffOnDate allAssignments staffMember.id currentDate
          let nextShift := getShiftForStaffOnDate allAssignments staffMember.id nextDate
          if currentShift == some .D && nextShift == some .N then
            some (mkGradualViolation staffMember nextDate)
          else none
        boundary ++ inner
      ⟨violations.length == 0, violations⟩

/-! ### `constraints/maxSameShiftConsecutive.ts` -/

/-- Streak threshold (`CONSECUTIVE_THRESHOLD`). -/
def CONSECUTIVE_THRESHOLD : Nat := 5

/-- The work shift types scanned (`WORK_SHIFT_TYPES`). -/
def WORK_SHIFT_TYPES : List Shift := [.D, .E, .N]

/-- Count of trailing entries of the given shift at the end of a list
(the source's backwards loop over the sorted previous-period
assignments; note it inspects list positions only, not dates). -/
def trailingRunAux (shiftType : Shift) : List ShiftAssignment → Nat
  | [] => 0
  | a :: as => if a.shift == shiftType then 1 + trailingRunAux shiftType as else 0

/-- Trailing same-shift count of the previous-period assignments. -/
def trailingSameShift (shiftType : Shift) (l : List ShiftAssignment) : Nat :=
  trailingRunAux shiftType l.reverse

/-- In-period loop of `max-same-shift-consecutive`: emit exactly when the
running count reaches the threshold (the `=== 5` comparison). -/
def maxSameShiftGo (allAssignments : List ShiftAssignment) (sm : Staff) (shiftType : Shift) :
    List Int → Nat → List Violation
  | [], _ => []
  | d :: ds, consecutiveCount =>
    if getShiftForStaffOnDate allAssignments sm.id d == some shiftType then
      let count := consecutiveCount + 1
      let rest := maxSameShiftGo allAssignments sm shiftType ds count
      if count == CONSECUTIVE_THRESHOLD then
        { constraintId := "max-same-shift-consecutive", constraintName := "동일근무연속상한",
          severity := .warning,
          context := { staffId := some sm.id, staffName := some sm.name,
                       date := some d } } :: rest
      else rest
    else maxSameShiftGo allAssignments sm shiftType ds 0

/-- `maxSameShiftConsecutiveConstraint`. -/
def maxSameShiftConsecutiveConstraint : Constraint where
  id := "max-same-shift-consecutive"
  name := "동일근무연속상한"
  severityType := .soft
  check ctx :=
    let softConfig := ctx.config.softConstraints.maxSameShiftConsecutive
    if !softConfig.enabled then ⟨true, []⟩
    else
      let allAssignments := ctx.previousPeriodEnd ++ ctx.schedule.assignments
      let violations := ctx.staff.flatMap fun staffMember =>
        WORK_SHIFT_TYPES.flatMap fun shiftType =>
          let seed :=
            if ctx.previousPeriodEnd.length > 0 then
              trailingSameShift shiftType
                (sortAsc (ctx.previousPeriodEnd.filter fun a => a.staffId == staffMember.id))
            else 0
          maxSameShiftGo allAssignments staffMember shiftType
            (periodDates ctx.schedule.startDate) seed
      ⟨violations.length == 0, violations⟩

/-! ### `constraints/restClustering.ts` -/

/-- `restClusteringConstraint`: an OFF day with no OFF neighbour. -/
def restClusteringConstraint : Constraint where
  id := "rest-clustering"
  name := "휴식일집중"
  severityType := .soft
  check ctx :=
    let softConfig := ctx.config.softConstraints.restClustering
    if !softConfig.enabled then ⟨true, []⟩
    else
      let allAssignments := ctx.previousPeriodEnd ++ ctx.schedule.assignments
      let violations := ctx.staff.flatMap fun staffMember =>
        (List.range 28).filterMap fun (i : Nat) =>
          let currentDate := ctx.schedule.startDate + (i : Int)
          match getShiftForStaffOnDate allAssignments staffMember.id currentDate with
          | some .OFF =>
            let prevShift :=
              getShiftForStaffOnDate allAssignments staffMember.id (currentDate - 1)
            let nextShift :=
              getShiftForStaffOnDate allAssignments staffMember.id (currentDate + 1)
            let isIsolated := prevShift != some .OFF && nextShift != some .OFF
            if isIsolated then
              some { constraintId := "rest-clustering", constraintName := "휴식일집중",
                     severity := .warning,
                     context := { staffId := some staffMember.id,
                                  staffName := some staffMember.name,
                                  date := some currentDate } }
            else none
          | _ => none
      ⟨violations.length == 0, violations⟩

/-! ### `constraints/postRestDayShift.ts` -/

/-- Violation record emitted by `post-rest-day-shift`. -/
def mkPostRestViolation (sm : Staff) (d : Int) : Violation :=
  { constraintId := "post-rest-day-shift", constraintName := "휴무후야간",
    severity := .warning,
    context := { staffId := some sm.id, staffName := some sm.name, date := some d } }

/-- `postRestDayShiftConstraint`: OFF→N transitions, including the
previous-period boundary. -/
def postRestDayShiftConstraint : Constraint where
  id := "post-rest-day-shift"
  name := "휴무후야간"
  severityType := .soft
  check ctx :=
    let softConfig := ctx.config.softConstraints.postRestDayShift
    if !softConfig.enabled then ⟨true, []⟩
    else
      let allAssignments := ctx.previousPeriodEnd ++ ctx.schedule.assignments
      let violations := ctx.staff.flatMap fun staffMember =>
        let boundary :=
          if ctx.previousPeriodEnd.length > 0 then
            match (sortAsc (ctx.previousPeriodEnd.filter
                fun a => a.staffId == staffMember.id)).getLast? with
            | some lastPrev =>
              match getShiftForStaffOnDate ctx.schedule.assignments staffMember.id
                  ctx.schedule.startDate with
              | some .N =>
                if lastPrev.shift == .OFF then
                  [mkPostRestViolation staffMember ctx.schedule.startDate]
                else []
              | _ => []
            | none => []
          else []
        let inner := (List.range 27).filterMap fun (i : Nat) =>
          let currentDate := ctx.schedule.startDate + (i : Int)
          let nextDate := ctx.schedule.startDate + (i : Int) + 1
          let currentShift := getShiftForStaffOnDate allAssignments staffMember.id currentDate
          let nextShift := getShiftForStaffOnDate allAssignments staffMember.id nextDate
          if currentShift == some .OFF && nextShift == some .N then
            some (mkPostRestViolation staffMember nextDate)
          else none
        boundary ++ inner
      ⟨violations.length == 0, violations⟩

/-! ### `constraints/weekendFairness.ts` -/

/-- Weekend work days of one staff member over the period. -/
def weekendWorkDays (schedule : Schedule) (staffId : String) : Nat :=
  ((List.range 28).filter fun (i : Nat) =>
    let currentDate := schedule.startDate + (i : Int)
    isWeekend currentDate &&
      match getShiftForStaffOnDate schedule.assignments staffId currentDate with
      | some s => s != .OFF
      | none => false).length

/-- `weekendFairnessConstraint`: flag staff whose weekend work count
exceeds the average by more than 2 (exact rationals in place of the
source's floating-point average). -/
def weekendFairnessConstraint : Constraint where
  id := "weekend-fairness"
  name := "주말공정성"
  severityType := .soft
  check ctx :=
    let softConfig := ctx.config.softConstraints.weekendFairness
    if !softConfig.enabled then ⟨true, []⟩
    else
      let counts := ctx.staff.map fun staffMember => weekendWorkDays ctx.schedule staffMember.id
      if counts.length = 0 then ⟨true, []⟩
      else
        let average : ℚ := mkRat (counts.foldl (· + ·) 0 : Nat) counts.length
        let threshold : ℚ := 2
        let violations := ctx.staff.filterMap fun staffMember =>
          let count := weekendWorkDays ctx.schedule staffMember.id
          let deviation : ℚ := (count : ℚ) - average
          if deviation > threshold then
            some { constraintId := "weekend-fairness", constraintName := "주말공정성",
                   severity := .warning,
                   context := { staffId := some staffMember.id,
                                staffName := some staffMember.name } }
          else none
        ⟨violations.length == 0, violations⟩

/-! ### `constraints/shiftContinuity.ts` -/

/-- Fold counting the work-shift type changes of one staff member
(unassigned and OFF days are skipped). -/
def shiftContinuityGo (assignments : List ShiftAssignment) (sm : Staff) :
    List Int → Nat → Option Shift → Nat
  | [], shiftChanges, _ => shiftChanges
  | d :: ds, shiftChanges, lastWorkShift =>
    match getShiftForStaffOnDate assignments sm.id d with
    | none => shiftContinuityGo assignments sm ds shiftChanges lastWorkShift
    | some .OFF => shiftContinuityGo assignments sm ds shiftChanges lastWorkShift
    | some s =>
      let shiftChanges' :=
        match lastWorkShift with
        | some l => if l != s then shiftChanges + 1 else shiftChanges
        | none => shiftChanges
      shiftContinuityGo assignments sm ds shiftChanges' (some s)

/-- `shiftContinuityConstraint`: more than 10 work-shift type changes. -/
def shiftContinuityConstraint : Constraint where
  id := "shift-continuity"
  name := "근무연속성"
  severityType := .soft
  check ctx :=
    let softConfig := ctx.config.softConstraints.shiftContinuity
    if !softConfig.enabled then ⟨true, []⟩
    else
      let violations := ctx.staff.filterMap fun staffMember =>
        let shiftChanges :=
          shiftContinuityGo ctx.schedule.assignments staffMember
            (periodDates ctx.schedule.startDate) 0 none
        let threshold : Nat := 10
        if shiftChanges > threshold then
          some { constraintId := "shift-continuity", constraintName := "근무연속성",
                 severity := .warning,
                 context := { staffId := some staffMember.id,
                              staffName := some staffMember.name } }
        else none
      ⟨violations.length == 0, violations⟩

/-! ### `constraints/index.ts` and `solver/feasibilityChecker.ts` -/

/-- `constraintRegistry`: the ordered list of all seventeen constraints. -/
def constraintRegistry : List Constraint :=
  [ shiftOrderConstraint,
    nightOffDayConstraint,
    consecutiveNightConstraint,
    monthlyNightConstraint,
    staffingConstraint,
    juhuConstraint,
    weeklyOffConstraint,
    maxConsecutiveWorkConstraint,
    nightBlockPolicyConstraint,
    maxPeriodOffConstraint,
    maxConsecutiveOffConstraint,
    gradualShiftProgressionConstraint,
    maxSameShiftConsecutiveConstraint,
    restClusteringConstraint,
    postRestDayShiftConstraint,
    weekendFairnessConstraint,
    shiftContinuityConstraint ]

/-- The six keys of `enabledConstraints` (`type ConstraintId = keyof …`). -/
inductive ConfigKey where
  | shiftOrder
  | nightOffDay
  | consecutiveNight
  | monthlyNight
  | staffing
  | weeklyOff
deriving DecidableEq, Repr

/-- `constraintIdToConfigKey`: maps exactly six constraint ids to config
keys; every other id yields `null`. -/
def constraintIdToConfigKey : String → Option ConfigKey
  | "shift-order" => some .shiftOrder
  | "night-off-day" => some .nightOffDay
  | "consecutive-night" => some .consecutiveNight
  | "monthly-night" => some .monthlyNight
  | "staffing" => some .staffing
  | "weekly-off" => some .weeklyOff
  | _ => none

/-- Property access `config.enabledConstraints[constraintKey]`. -/
def enabledValue (ec : EnabledConstraints) : ConfigKey → Bool
  | .shiftOrder => ec.shiftOrder
  | .nightOffDay => ec.nightOffDay
  | .consecutiveNight => ec.consecutiveNight
  | .monthlyNight => ec.monthlyNight
  | .staffing => ec.staffing
  | .weeklyOff => ec.weeklyOff

/-- The skip test of the registry loop:
`constraintKey && !config.enabledConstraints[constraintKey]`. -/
def isSkipped (config : ConstraintConfig) (c : Constraint) : Bool :=
  match constraintIdToConfigKey c.id with
  | some constraintKey => !(enabledValue config.enabledConstraints constraintKey)
  | none => false

/-- `checkFeasibility`: build the context, run every non-skipped registry
entry, flatten the violations; feasible iff no error-severity violation. -/
def checkFeasibility (schedule : Schedule) (staff : List Staff)
    (config : ConstraintConfig) (previousPeriodEnd : List ShiftAssignment := []) :
    FeasibilityResult :=
  let scheduleCompleteness :=
    calculateScheduleCompleteness schedule.assignments staff.length 28
  let context : ConstraintContext :=
    ⟨schedule, staff, config, previousPeriodEnd, scheduleCompleteness⟩
  let violations := constraintRegistry.foldl
    (fun acc c => if isSkipped config c then acc else acc ++ (c.check context).violations) []
  { feasible := !(violations.any fun v => v.severity == .error),
    violations := violations }

/-- `getDefaultConfig`. -/
def getDefaultConfig : ConstraintConfig where
  maxConsecutiveNights := 4
  monthlyNightsRequired := 7
  weeklyWorkHours := 40
  weekdayStaffing :=
    { day := ⟨1, 2⟩, evening := ⟨2, 2⟩, night := ⟨1, 2⟩ }
  weekendStaffing :=
    { day := ⟨2, 2⟩, evening := ⟨2, 2⟩, night := ⟨2, 2⟩ }
  enabledConstraints :=
    { shiftOrder := true, nightOffDay := true, consecutiveNight := true,
      monthlyNight := true, staffing := true, weeklyOff := true }
  constraintSeverity :=
    { shiftOrder := .hard, nightOffDay := .hard, consecutiveNight := .hard,
      monthlyNight := .soft, staffing := .hard, weeklyOff := .hard }
  softConstraints :=
    { maxConsecutiveWork := { enabled := true, maxDays := some 5 },
      nightBlockPolicy := { enabled := true, minBlockSize := some 2 },
      maxPeriodOff := { enabled := false, maxOff := some 9 },
      maxConsecutiveOff := { enabled := false, maxDays := some 2 },
      gradualShiftProgression := ⟨true⟩,
      maxSameShiftConsecutive := ⟨true⟩,
      restClustering := ⟨true⟩,
      postRestDayShift := ⟨true⟩,
      weekendFairness := ⟨true⟩,
      shiftContinuity := ⟨true⟩ }

/-! ### `utils/impactCalculator.ts` (the variant with the juhu reason) -/

/-- Reason tag on an impact record. -/
inductive ImpactReason where
  | staffing
  | sequence
  | juhu
deriving DecidableEq, Repr

/-- One impact record (`CellImpact`). -/
structure CellImpact where
  staffId : String
  date : Int
  reason : ImpactReason
deriving DecidableEq, Repr

/-- The target cell argument. -/
structure TargetCell where
  staffId : String
  date : Int
deriving DecidableEq, Repr

/-- `getCellKey`: the source concatenates `staffId-date`; since the date
part has fixed width this is injective in the pair, which we use as key. -/
def getCellKey (staffId : String) (date : Int) : String × Int :=
  (staffId, date)

/-- The `staffingImpacts` list of `calculateCellImpact`: all other staff
on the target date. -/
def staffingImpactsOf (staff : List Staff) (targetCell : TargetCell) : List CellImpact :=
  staff.filterMap fun s =>
    if s.id != targetCell.staffId then
      some ⟨s.id, targetCell.date, .staffing⟩
    else none

/-- The `sequenceImpacts` list of `calculateCellImpact`: the same staff at
offsets −2…2 without 0, clipped to the 28-day window. -/
def sequenceImpactsOf (startDate : Int) (targetCell : TargetCell) : List CellImpact :=
  (List.range 5).filterMap fun (k : Nat) =>
    let offset : Int := (k : Int) - 2
    if offset == 0 then none
    else
      let impactDate := targetCell.date + offset
      let scheduleEnd := startDate + 27
      if startDate ≤ impactDate && impactDate ≤ scheduleEnd then
        some ⟨targetCell.staffId, impactDate, .sequence⟩
      else none

/-- The `juhuImpacts` list of `calculateCellImpact`: every period date on
the target staff member's juhu weekday, excluding the target cell. -/
def juhuImpactsOf (startDate : Int) (staff : List Staff) (targetCell : TargetCell) :
    List CellImpact :=
  match staff.find? (fun s => s.id == targetCell.staffId) with
  | some staffMember =>
    (List.range 28).filterMap fun (i : Nat) =>
      let checkDate := startDate + (i : Int)
      if some (dayOfWeek checkDate) == staffMember.juhuDay
          && checkDate != targetCell.date then
        some ⟨targetCell.staffId, checkDate, .juhu⟩
      else none
  | none => []

/-- `calculateCellImpact`: staffing impacts (all other staff, same date),
then sequence impacts, then juhu impacts, in that push order. -/
def calculateCellImpact (schedule : Schedule) (staff : List Staff)
    (targetCell : TargetCell) : List CellImpact :=
  staffingImpactsOf staff targetCell ++ sequenceImpactsOf schedule.startDate targetCell ++
    juhuImpactsOf schedule.startDate staff targetCell

/-- `buildImpactMap`: fold the impact list into a key → reason map keeping
the first reason pushed for each key. -/
def buildImpactMap (impacts : List CellImpact) : List ((String × Int) × ImpactReason) :=
  impacts.foldl
    (fun m impact =>
      let key := getCellKey impact.staffId impact.date
      if (m.lookup key).isSome then m else m ++ [(key, impact.reason)])
    []

/-! ### Concrete scenario data (the tests' standard 2025-01-06 setup) -/

/-- 2025-01-03 as a day number. -/
def date0103 : Int := 20091

/-- 2025-01-04 as a day number. -/
def date0104 : Int := 20092

/-- 2025-01-05 as a day number. -/
def date0105 : Int := 20093

/-- 2025-01-06 (a Monday, the tests' standard start date). -/
def date0106 : Int := 20094

/-- 2025-01-07 as a day number. -/
def date0107 : Int := 20095

/-- 2025-01-08 as a day number. -/
def date0108 : Int := 20096

/-- 2025-01-09 as a day number. -/
def date0109 : Int := 20097

/-- 2025-01-10 as a day number. -/
def date0110 : Int := 20098

/-- 2025-01-11 as a day number. -/
def date0111 : Int := 20099

/-- 2025-01-12 (a Sunday). -/
def date0112 : Int := 20100

/-- Context construction as performed by `checkFeasibility`. -/
def buildContext (schedule : Schedule) (staff : List Staff) (config : ConstraintConfig)
    (previousPeriodEnd : List ShiftAssignment) : ConstraintContext :=
  ⟨schedule, staff, config, previousPeriodEnd,
    calculateScheduleCompleteness schedule.assignments staff.length 28⟩

/-- The tests' single staff member. -/
def staff1 : Staff := ⟨"staff-1", "홍길동", some 0⟩

/-- Claim C3 scenario: N on 01-04 and 01-05 in the trail, N on 01-06…08. -/
def ctxC3 : ConstraintContext :=
  buildContext
    ⟨date0106,
      [⟨"staff-1", date0106, .N, none⟩, ⟨"staff-1", date0107, .N, none⟩,
       ⟨"staff-1", date0108, .N, none⟩]⟩
    [staff1] getDefaultConfig
    [⟨"staff-1", date0104, .N, none⟩, ⟨"staff-1", date0105, .N, none⟩]

/-- Claim C2 counterexample scenario: work assigned on the juhu day. -/
def ctxC2 : ConstraintContext :=
  buildContext ⟨date0106, [⟨"staff-1", date0112, .D, none⟩]⟩ [staff1] getDefaultConfig []

/-- Claim C6 scenario: four week-1 assignments, all D. -/
def ctxC6 : ConstraintContext :=
  buildContext
    ⟨date0106,
      [⟨"staff-1", date0106, .D, none⟩, ⟨"staff-1", date0107, .D, none⟩,
       ⟨"staff-1", date0108, .D, none⟩, ⟨"staff-1", date0109, .D, none⟩]⟩
    [staff1] getDefaultConfig []

/-- Claim C7 counterexample, base trail: N on 01-03 and 01-04 (a gap on
01-05), with N on 01-06…08 in the current period. -/
def prevC7 : List ShiftAssignment :=
  [⟨"staff-1", date0103, .N, none⟩, ⟨"staff-1", date0104, .N, none⟩]

/-- Claim C7 counterexample, current schedule. -/
def schedC7 : Schedule :=
  ⟨date0106,
    [⟨"staff-1", date0106, .N, none⟩, ⟨"staff-1", date0107, .N, none⟩,
     ⟨"staff-1", date0108, .N, none⟩]⟩

/-- Claim C7 counterexample, the assignment added to the trail: an OFF on
the previously unassigned 01-05 (OFF does not satisfy the same-shift-N
streak predicate). -/
def addedC7 : ShiftAssignment := ⟨"staff-1", date0105, .OFF, none⟩

/-- Claim C7 counterexample, context on the base trail. -/
def ctxC7a : ConstraintContext := buildContext schedC7 [staff1] getDefaultConfig prevC7

/-- Claim C7 counterexample, context on the extended trail. -/
def ctxC7b : ConstraintContext :=
  buildContext schedC7 [staff1] getDefaultConfig (prevC7 ++ [addedC7])

/-- Default config with `max-consecutive-off` switched on (its default
`enabled` is false). -/
def configC8 : ConstraintConfig :=
  { getDefaultConfig with
      softConstraints :=
        { getDefaultConfig.softConstraints with
            maxConsecutiveOff := { enabled := true, maxDays := some 2 } } }

/-- Claim C8 counterexample scenario: OFF on 01-06 and 01-07, nothing on
01-08, OFF on 01-09. -/
def ctxC8 : ConstraintContext :=
  buildContext
    ⟨date0106,
      [⟨"staff-1", date0106, .OFF, none⟩, ⟨"staff-1", date0107, .OFF, none⟩,
       ⟨"staff-1", date0109, .OFF, none⟩]⟩
    [staff1] configC8 []

/-! ### Specification-side definitions used to state the claims -/

/-- The ten soft (tier) constraints: the registry entries gated on
`softConstraints[id].enabled` (this excludes `monthly-night` and `juhu`,
which the spec classifies separately even though their descriptors say
`severityType = soft`). -/
def softTierConstraints : List Constraint :=
  [ maxConsecutiveWorkConstraint,
    nightBlockPolicyConstraint,
    maxPeriodOffConstraint,
    maxConsecutiveOffConstraint,
    gradualShiftProgressionConstraint,
    maxSameShiftConsecutiveConstraint,
    restClusteringConstraint,
    postRestDayShiftConstraint,
    weekendFairnessConstraint,
    shiftContinuityConstraint ]

/-- The six constraint ids mapped by `constraintIdToConfigKey`. -/
def mappedConstraintIds : List String :=
  ["shift-order", "night-off-day", "consecutive-night", "monthly-night",
   "staffing", "weekly-off"]

/-- First assignment of the given date in a staff-filtered list. -/
def lookupDate (l : List ShiftAssignment) (d : Int) : Option Shift :=
  (l.find? fun a => a.date == d).map (·.shift)

/-- Specification of the consecutive-night running count: the days on
which the count, seeded with `count`, incremented on each N day and reset
on any other day (assigned or not), exceeds `maxConsecutive`. -/
def nightRunDays (lookup : Int → Option Shift) (maxConsecutive : Int) :
    List Int → Nat → List Int
  | [], _ => []
  | d :: ds, count =>
    if lookup d = some .N then
      let c := count + 1
      (if (c : Int) > maxConsecutive then [d] else []) ++ nightRunDays lookup maxConsecutive ds c
    else nightRunDays lookup maxConsecutive ds 0

/-- Specification of the consecutive-OFF running count as the code
implements it: the count, seeded with `count`, increments on each OFF
day, holds (unchanged) on an unassigned day, and resets only on an
assigned non-OFF day; listed are the days where it exceeds `maxDays`. -/
def offRunDays (lookup : Int → Option Shift) (maxDays : Int) :
    List Int → Nat → List Int
  | [], _ => []
  | d :: ds, count =>
    match lookup d with
    | some .OFF =>
      let c := count + 1
      (if (c : Int) > maxDays then [d] else []) ++ offRunDays lookup maxDays ds c
    | some _ => offRunDays lookup maxDays ds 0
    | none => offRunDays lookup maxDays ds count

/-- Colour-resolution priority of an impact reason:
`sequence > juhu > staffing`. -/
def impactPriority : ImpactReason → Nat
  | .sequence => 2
  | .juhu => 1
  | .staffing => 0

/-! ## Helper lemmas -/

theorem severity_mem_maxConsecutiveWorkGo {all : List ShiftAssignment} {sm : Staff}
    {maxDays : Int} :
    ∀ {ds : List Int} {count : Nat} {startD : Option Int} {v : Violation},
      v ∈ maxConsecutiveWorkGo all sm maxDays ds count startD →
      v.severity = Severity.warning := by
  intro ds
  induction ds with
  | nil => intro count startD v h; simp [maxConsecutiveWorkGo] at h
  | cons d ds ih =>
    intro count startD v h
    rw [maxConsecutiveWorkGo] at h
    split at h
    · dsimp only at h
      split at h
      · rcases List.mem_cons.mp h with rfl | h'
        · rfl
        · exact ih h'
      · exact ih h
    · exact ih h

theorem severity_mem_maxConsecutiveOffGo {all : List ShiftAssignment} {sm : Staff}
    {maxDays : Int} :
    ∀ {ds : List Int} {count : Nat} {startD : Option Int} {v : Violation},
      v ∈ maxConsecutiveOffGo all sm maxDays ds count startD →
      v.severity = Severity.warning := by
  intro ds
  induction ds with
  | nil => intro count startD v h; simp [maxConsecutiveOffGo] at h
  | cons d ds ih =>
    intro count startD v h
    rw [maxConsecutiveOffGo] at h
    split at h
    · dsimp only at h
      split at h
      · rcases List.mem_cons.mp h with rfl | h'
        · rfl
        · exact ih h'
      · exact ih h
    · exact ih h
    · exact ih h

theorem severity_mem_maxSameShiftGo {all : List ShiftAssignment} {sm : Staff}
    {shiftType : Shift} :
    ∀ {ds : List Int} {count : Nat} {v : Violation},
      v ∈ maxSameShiftGo all sm shiftType ds count →
      v.severity = Severity.warning := by
  intro ds
  induction ds with
  | nil => intro count v h; simp [maxSameShiftGo] at h
  | cons d ds ih =>
    intro count v h
    rw [maxSameShiftGo] at h
    split at h
    · dsimp only at h
      split at h
      · rcases List.mem_cons.mp h with rfl | h'
        · rfl
        · exact ih h'
      · exact ih h
    · exact ih h

theorem severity_check_maxConsecutiveWork (ctx : ConstraintContext) (v : Violation)
    (h : v ∈ (maxConsecutiveWorkConstraint.check ctx).violations) :
    v.severity = Severity.warning := by
  simp only [maxConsecutiveWorkConstraint] at h
  split at h
  · simp at h
  · simp only [List.mem_flatMap] at h
    obtain ⟨sm, _, hv⟩ := h
    exact severity_mem_maxConsecutiveWorkGo hv

theorem severity_check_maxConsecutiveOff (ctx : ConstraintContext) (v : Violation)
    (h : v ∈ (maxConsecutiveOffConstraint.check ctx).violations) :
    v.severity = Severity.warning := by
  simp only [maxConsecutiveOffConstraint] at h
  split at h
  · simp at h
  · simp only [List.mem_flatMap] at h
    obtain ⟨sm, _, hv⟩ := h
    exact severity_mem_maxConsecutiveOffGo hv

theorem severity_check_maxSameShift (ctx : ConstraintContext) (v : Violation)
    (h : v ∈ (maxSameShiftConsecutiveConstraint.check ctx).violations) :
    v.severity = Severity.warning := by
  simp only [maxSameShiftConsecutiveConstraint] at h
  split at h
  · simp at h
  · simp only [List.mem_flatMap] at h
    obtain ⟨sm, _, t, _, hv⟩ := h
    exact severity_mem_maxSameShiftGo hv

theorem severity_check_nightBlock (ctx : ConstraintContext) (v : Violation)
    (h : v ∈ (nightBlockPolicyConstraint.check ctx).violations) :
    v.severity = Severity.warning := by
  simp only [nightBlockPolicyConstraint] at h
  split at h
  · simp at h
  · simp only [List.mem_flatMap, List.mem_filterMap] at h
    obtain ⟨sm, _, i, _, hv⟩ := h
    split at hv
    · split at hv
      · exact (Option.some.inj hv) ▸ rfl
      · exact absurd hv (by simp)
    · exact absurd hv (by simp)

theorem severity_check_restClustering (ctx : ConstraintContext) (v : Violation)
    (h : v ∈ (restClusteringConstraint.check ctx).violations) :
    v.severity = Severity.warning := by
  simp only [restClusteringConstraint] at h
  split at h
  · simp at h
  · simp only [List.mem_flatMap, List.mem_filterMap] at h
    obtain ⟨sm, _, i, _, hv⟩ := h
    split at hv
    · split at hv
      · exact (Option.some.inj hv) ▸ rfl
      · exact absurd hv (by simp)
    · exact absurd hv (by simp)

theorem severity_check_maxPeriodOff (ctx : ConstraintContext) (v : Violation)
    (h : v ∈ (maxPeriodOffConstraint.check ctx).violations) :
    v.severity = Severity.warning := by
  simp only [maxPeriodOffConstraint] at h
  split at h
  · simp at h
  · simp only [List.mem_filterMap] at h
    obtain ⟨sm, _, hv⟩ := h
    split at hv
    · exact (Option.some.inj hv) ▸ rfl
    · exact absurd hv (by simp)

theorem severity_check_weekendFairness (ctx : ConstraintContext) (v : Violation)
    (h : v ∈ (weekendFairnessConstraint.check ctx).violations) :
    v.severity = Severity.warning := by
  simp only [weekendFairnessConstraint] at h
  split at h
  · simp at h
  · split at h
    · simp at h
    · simp only [List.mem_filterMap] at h
      obtain ⟨sm, _, hv⟩ := h
      split at hv
      · exact (Option.some.inj hv) ▸ rfl
      · exact absurd hv (by simp)

theorem severity_check_shiftContinuity (ctx : ConstraintContext) (v : Violation)
    (h : v ∈ (shiftContinuityConstraint.check ctx).violations) :
    v.severity = Severity.warning := by
  simp only [shiftContinuityConstraint] at h
  split at h
  · simp at h
  · simp only [List.mem_filterMap] at h
    obtain ⟨sm, _, hv⟩ := h
    split at hv
    · exact (Option.some.inj hv) ▸ rfl
    · exact absurd hv (by simp)

theorem severity_check_gradual (ctx : ConstraintContext) (v : Violation)
    (h : v ∈ (gradualShiftProgressionConstraint.check ctx).violations) :
    v.severity = Severity.warning := by
  simp only [gradualShiftProgressionConstraint] at h
  split at h
  · simp at h
  · simp only [List.mem_flatMap] at h
    obtain ⟨sm, _, hv⟩ := h
    rcases List.mem_append.mp hv with hb | hi
    · split at hb
      · split at hb
        · split at hb
          · split at hb
            · rcases List.mem_singleton.mp hb with rfl
              rfl
            · simp at hb
          · simp at hb
        · simp at hb
      · simp at hb
    · simp only [List.mem_filterMap] at hi
      obtain ⟨i, _, hv'⟩ := hi
      split at hv'
      · exact (Option.some.inj hv') ▸ rfl
      · exact absurd hv' (by simp)

theorem severity_check_postRest (ctx : ConstraintContext) (v : Violation)
    (h : v ∈ (postRestDayShiftConstraint.check ctx).violations) :
    v.severity = Severity.warning := by
  simp only [postRestDayShiftConstraint] at h
  split at h
  · simp at h
  · simp only [List.mem_flatMap] at h
    obtain ⟨sm, _, hv⟩ := h
    rcases List.mem_append.mp hv with hb | hi
    · split at hb
      · split at hb
        · split at hb
          · split at hb
            · rcases List.mem_singleton.mp hb with rfl
              rfl
            · simp at hb
          · simp at hb
        · simp at hb
      · simp at hb
    · simp only [List.mem_filterMap] at hi
      obtain ⟨i, _, hv'⟩ := hi
      split at hv'
      · exact (Option.some.inj hv') ▸ rfl
      · exact absurd hv' (by simp)

/-! ## Claim C1 -/

/-- Claim C1: for every schedule, staff list, config and previous-period
trail, the `FeasibilityResult` returned by `checkFeasibility` has
`feasible = true` iff no violation in its returned list has
`severity = error`. -/
theorem checkFeasibility_feasible_iff_no_error (schedule : Schedule) (staff : List Staff)
    (config : ConstraintConfig) (previousPeriodEnd : List ShiftAssignment) :
    (checkFeasibility schedule staff config previousPeriodEnd).feasible = true ↔
      ∀ v ∈ (checkFeasibility schedule staff config previousPeriodEnd).violations,
        v.severity ≠ Severity.error := by
  simp [checkFeasibility, List.any_eq_true]

/-! ## Claim C2 -/

/-- Claim C2 counterexample: the `juhu` constraint is in the registry and
its descriptor says `severityType = soft`, yet on a concrete context
(one D assigned on the staff member's Sunday juhu day, default config) it
emits a violation with `severity = error` — `'juhu'` is not a key of
`constraintSeverity`, so `getSeverityFromConfig` falls back to `'hard'`. -/
theorem juhu_declared_soft_emits_error :
    juhuConstraint ∈ constraintRegistry ∧
    juhuConstraint.severityType = ConstraintSeverityType.soft ∧
    (juhuConstraint.check ctxC2).violations.map Violation.severity = [Severity.error] := by
  refine ⟨?_, rfl, by decide⟩
  unfold constraintRegistry
  exact .tail _ (.tail _ (.tail _ (.tail _ (.tail _ (.head _)))))

/-- Claim C2, amended: every violation emitted by any of the ten
`softConstraints`-gated soft constraints has `severity = warning`, for
every context; but the `juhu` constraint — whose descriptor also says
`severityType = soft` — always resolves its severity to `error`, because
`'juhu'` has no entry in `constraintSeverity` and the lookup defaults to
`'hard'`. -/
theorem softTier_warning_juhu_error :
    (∀ ctx : ConstraintContext, ∀ c ∈ softTierConstraints,
      ∀ v ∈ (c.check ctx).violations, v.severity = Severity.warning) ∧
    (∀ config : ConstraintConfig, getSeverityFromConfig config "juhu" = Severity.error) := by
  constructor
  · intro ctx c hc v hv
    simp only [softTierConstraints, List.mem_cons, List.not_mem_nil, or_false] at hc
    rcases hc with rfl | rfl | rfl | rfl | rfl | rfl | rfl | rfl | rfl | rfl
    · exact severity_check_maxConsecutiveWork ctx v hv
    · exact severity_check_nightBlock ctx v hv
    · exact severity_check_maxPeriodOff ctx v hv
    · exact severity_check_maxConsecutiveOff ctx v hv
    · exact severity_check_gradual ctx v hv
    · exact severity_check_maxSameShift ctx v hv
    · exact severity_check_restClustering ctx v hv
    · exact severity_check_postRest ctx v hv
    · exact severity_check_weekendFairness ctx v hv
    · exact severity_check_shiftContinuity ctx v hv
  · intro config
    rfl

/-- Witness for the amended Claim C2, at concrete inputs: the
`max-same-shift-consecutive` violation emitted on `ctxC7a` is a warning,
and the default config resolves juhu's severity to error. -/
theorem softTier_warning_juhu_error_witness :
    (Violation.mk "max-same-shift-consecutive" "동일근무연속상한" Severity.warning
        ⟨some "staff-1", some "홍길동", some date0108, none⟩).severity = Severity.warning ∧
    getSeverityFromConfig getDefaultConfig "juhu" = Severity.error :=
  ⟨softTier_warning_juhu_error.1 ctxC7a maxSameShiftConsecutiveConstraint
      (by unfold softTierConstraints
          exact .tail _ (.tail _ (.tail _ (.tail _ (.tail _ (.head _))))))
      _ (by decide),
   softTier_warning_juhu_error.2 getDefaultConfig⟩

/-! ## Claim C10 -/

/-- Claim C10: the enabled/disabled skipping of `checkFeasibility` applies
only to the six constraint ids mapped in `constraintIdToConfigKey`; the
juhu constraint and every (tier) soft constraint are never skipped, and
each soft constraint returns an empty result from inside its own check
when `softConstraints[id].enabled` is false. -/
theorem enabled_gating_scope :
    (∀ c ∈ constraintRegistry,
      (constraintIdToConfigKey c.id).isSome = true ↔ c.id ∈ mappedConstraintIds) ∧
    (∀ config : ConstraintConfig, isSkipped config juhuConstraint = false) ∧
    (∀ config : ConstraintConfig, ∀ c ∈ softTierConstraints, isSkipped config c = false) ∧
    (∀ ctx : ConstraintContext,
      (ctx.config.softConstraints.maxConsecutiveWork.enabled = false →
        maxConsecutiveWorkConstraint.check ctx = ⟨true, []⟩) ∧
      (ctx.config.softConstraints.nightBlockPolicy.enabled = false →
        nightBlockPolicyConstraint.check ctx = ⟨true, []⟩) ∧
      (ctx.config.softConstraints.maxPeriodOff.enabled = false →
        maxPeriodOffConstraint.check ctx = ⟨true, []⟩) ∧
      (ctx.config.softConstraints.maxConsecutiveOff.enabled = false →
        maxConsecutiveOffConstraint.check ctx = ⟨true, []⟩) ∧
      (ctx.config.softConstraints.gradualShiftProgression.enabled = false →
        gradualShiftProgressionConstraint.check ctx = ⟨true, []⟩) ∧
      (ctx.config.softConstraints.maxSameShiftConsecutive.enabled = false →
        maxSameShiftConsecutiveConstraint.check ctx = ⟨true, []⟩) ∧
      (ctx.config.softConstraints.restClustering.enabled = false →
        restClusteringConstraint.check ctx = ⟨true, []⟩) ∧
      (ctx.config.softConstraints.postRestDayShift.enabled = false →
        postRestDayShiftConstraint.check ctx = ⟨true, []⟩) ∧
      (ctx.config.softConstraints.weekendFairness.enabled = false →
        weekendFairnessConstraint.check ctx = ⟨true, []⟩) ∧
      (ctx.config.softConstraints.shiftContinuity.enabled = false →
        shiftContinuityConstraint.check ctx = ⟨true, []⟩)) := by
  refine ⟨?_, fun config => rfl, ?_, ?_⟩
  · intro c hc
    simp only [constraintRegistry, List.mem_cons, List.not_mem_nil, or_false] at hc
    rcases hc with rfl | rfl | rfl | rfl | rfl | rfl | rfl | rfl | rfl | rfl | rfl | rfl | rfl
      | rfl | rfl | rfl | rfl
    all_goals decide
  · intro config c hc
    simp only [softTierConstraints, List.mem_cons, List.not_mem_nil, or_false] at hc
    rcases hc with rfl | rfl | rfl | rfl | rfl | rfl | rfl | rfl | rfl | rfl
    all_goals rfl
  · intro ctx
    refine ⟨fun h => ?_, fun h => ?_, fun h => ?_, fun h => ?_, fun h => ?_, fun h => ?_,
      fun h => ?_, fun h => ?_, fun h => ?_, fun h => ?_⟩
    · simp [maxConsecutiveWorkConstraint, h]
    · simp [nightBlockPolicyConstraint, h]
    · simp [maxPeriodOffConstraint, h]
    · simp [maxConsecutiveOffConstraint, h]
    · simp [gradualShiftProgressionConstraint, h]
    · simp [maxSameShiftConsecutiveConstraint, h]
    · simp [restClusteringConstraint, h]
    · simp [postRestDayShiftConstraint, h]
    · simp [weekendFairnessConstraint, h]
    · simp [shiftContinuityConstraint, h]

/-- Witness for Claim C10 at concrete inputs: `max-period-off` is disabled
in the default config, so its check on `ctxC2` returns an empty result;
and the skip test never fires for juhu. -/
theorem enabled_gating_scope_witness :
    maxPeriodOffConstraint.check ctxC2 = ⟨true, []⟩ ∧
    isSkipped getDefaultConfig juhuConstraint = false :=
  ⟨(enabled_gating_scope.2.2.2 ctxC2).2.2.1 (by decide),
   enabled_gating_scope.2.1 getDefaultConfig⟩

/-! ## Claim C5 -/

theorem weekDatesOf_head (s : Int) (w : Nat) :
    (weekDatesOf s w).head? = some (s + ((w * 7 : Nat) : Int)) := by
  have h7 : List.range 7 = [0, 1, 2, 3, 4, 5, 6] := rfl
  simp [weekDatesOf, h7]

theorem weekDatesOf_inj {s : Int} {w w' : Nat}
    (h : weekDatesOf s w = weekDatesOf s w') : w = w' := by
  have h1 := weekDatesOf_head s w
  have h2 := weekDatesOf_head s w'
  rw [h, h2] at h1
  have h3 := Option.some.inj h1
  have h4 : ((w' * 7 : Nat) : Int) = ((w * 7 : Nat) : Int) := add_left_cancel h3
  omega

/-- Claim C5: when the overall completeness ratio is below 0.5 the
staffing check emits no violations; and for every staff member and week
whose per-staff in-week completeness is below 0.5, the weekly-off check
emits no violation for that staff and week. -/
theorem completeness_gating :
    (∀ (schedule : Schedule) (staff : List Staff) (config : ConstraintConfig)
        (previousPeriodEnd : List ShiftAssignment),
      calculateScheduleCompleteness schedule.assignments staff.length 28 <
        STAFFING_ERROR_THRESHOLD →
      (staffingConstraint.check
        (buildContext schedule staff config previousPeriodEnd)).violations = []) ∧
    (∀ (ctx : ConstraintContext), ∀ sm ∈ ctx.staff, ∀ week : Nat, week < 4 →
      mkRat (weekAssignmentsOf ctx.schedule sm.id week).length 7 <
        WEEKLY_COMPLETENESS_THRESHOLD →
      ∀ v ∈ (weeklyOffConstraint.check ctx).violations,
        ¬(v.context.staffId = some sm.id ∧
          v.context.dates = some (weekDatesOf ctx.schedule.startDate week))) := by
  constructor
  · intro schedule staff config previousPeriodEnd h
    have hc : (buildContext schedule staff config previousPeriodEnd).scheduleCompleteness <
        STAFFING_ERROR_THRESHOLD := h
    simp [staffingConstraint, hc]
  · intro ctx sm hsm week hw hlt v hv hcon
    obtain ⟨hstaff, hdates⟩ := hcon
    simp only [weeklyOffConstraint, List.mem_flatMap, List.mem_filterMap,
      List.mem_range] at hv
    obtain ⟨sm', hsm', week', hw', hv'⟩ := hv
    split at hv'
    · exact absurd hv' (by simp)
    · next hge =>
      split at hv'
      · have hveq := (Option.some.inj hv').symm
        subst hveq
        simp only [mkWeeklyOffViolation] at hstaff hdates
        have hid : sm'.id = sm.id := Option.some.inj hstaff
        have hweek : week' = week := weekDatesOf_inj (Option.some.inj hdates)
        subst hweek
        rw [hid] at hge
        exact hge hlt
      · exact absurd hv' (by simp)

/-- Witness for Claim C5: five staff, a single assignment (completeness
1/140), so staffing is silent; and a week with three assignments
(in-week completeness 3/7) yields no weekly-off violation for it. -/
theorem completeness_gating_witness :
    (staffingConstraint.check
      (buildContext ⟨date0106, [⟨"staff-1", date0106, .D, none⟩]⟩
        [staff1, ⟨"s2", "b", none⟩, ⟨"s3", "c", none⟩, ⟨"s4", "d", none⟩, ⟨"s5", "e", none⟩]
        getDefaultConfig [])).violations = [] ∧
    ∀ v ∈ (weeklyOffConstraint.check
        (buildContext
          ⟨date0106,
            [⟨"staff-1", date0106, .D, none⟩, ⟨"staff-1", date0107, .D, none⟩,
             ⟨"staff-1", date0108, .D, none⟩]⟩
          [staff1] getDefaultConfig [])).violations,
      ¬(v.context.staffId = some staff1.id ∧
        v.context.dates = some (weekDatesOf date0106 0)) :=
  ⟨completeness_gating.1 ⟨date0106, [⟨"staff-1", date0106, .D, none⟩]⟩
      [staff1, ⟨"s2", "b", none⟩, ⟨"s3", "c", none⟩, ⟨"s4", "d", none⟩, ⟨"s5", "e", none⟩]
      getDefaultConfig [] (by decide),
   completeness_gating.2 _ staff1 (List.mem_singleton.mpr rfl) 0 (by decide)
     (by decide)⟩

/-! ## Claim C6 -/

/-- Claim C6: a weekly-off violation is emitted exactly for the evaluated
weeks (per-week completeness ≥ 0.5) whose OFF count is below
`7 − ⌈weeklyWorkHours/8⌉`, with `dates` the full week; and on the
concrete scenario (`weeklyWorkHours = 40`, four week-1 assignments all D)
exactly one violation is emitted, for week 1, with OFF count 0 and
required minimum 2. -/
theorem weeklyOff_characterization :
    (∀ (ctx : ConstraintContext) (v : Violation),
      v ∈ (weeklyOffConstraint.check ctx).violations ↔
        ∃ sm ∈ ctx.staff, ∃ week : Nat, week < 4 ∧
          ¬(mkRat (weekAssignmentsOf ctx.schedule sm.id week).length 7 <
              WEEKLY_COMPLETENESS_THRESHOLD) ∧
          ((((weekAssignmentsOf ctx.schedule sm.id week).filter
              fun a => a.shift == Shift.OFF).length : Int) <
            calculateMinOffDays ctx.config.weeklyWorkHours) ∧
          v = mkWeeklyOffViolation (getSeverityFromConfig ctx.config "weeklyOff") sm
                (weekDatesOf ctx.schedule.startDate week)) ∧
    calculateMinOffDays 40 = 2 ∧
    (weeklyOffConstraint.check ctxC6).violations =
      [mkWeeklyOffViolation Severity.error staff1 (weekDatesOf date0106 0)] ∧
    ((weekAssignmentsOf ctxC6.schedule staff1.id 0).filter
        fun a => a.shift == Shift.OFF).length = 0 := by
  refine ⟨?_, by decide, by decide, by decide⟩
  intro ctx v
  constructor
  · intro hv
    simp only [weeklyOffConstraint, List.mem_flatMap, List.mem_filterMap,
      List.mem_range] at hv
    obtain ⟨sm, hsm, week, hw, hv'⟩ := hv
    split at hv'
    · exact absurd hv' (by simp)
    · next hge =>
      split at hv'
      · next hoff =>
        exact ⟨sm, hsm, week, hw, hge, hoff, (Option.some.inj hv').symm⟩
      · exact absurd hv' (by simp)
  · rintro ⟨sm, hsm, week, hw, hge, hoff, rfl⟩
    simp only [weeklyOffConstraint, List.mem_flatMap, List.mem_filterMap, List.mem_range]
    refine ⟨sm, hsm, week, hw, ?_⟩
    dsimp only
    rw [if_neg hge, if_pos hoff]

/-! ## Claim C4 -/

theorem nightOffDay_mem_iff (ctx : ConstraintContext) (v : Violation) :
    v ∈ (nightOffDayConstraint.check ctx).violations ↔
      ∃ sm ∈ ctx.staff, ∃ o : Int, -2 ≤ o ∧ o ≤ 25 ∧
        getShiftForStaffOnDate (ctx.previousPeriodEnd ++ ctx.schedule.assignments) sm.id
          (ctx.schedule.startDate + o) = some Shift.N ∧
        getShiftForStaffOnDate (ctx.previousPeriodEnd ++ ctx.schedule.assignments) sm.id
          (ctx.schedule.startDate + o + 1) = some Shift.OFF ∧
        getShiftForStaffOnDate (ctx.previousPeriodEnd ++ ctx.schedule.assignments) sm.id
          (ctx.schedule.startDate + o + 2) = some Shift.D ∧
        v = mkNightOffDayViolation (getSeverityFromConfig ctx.config "nightOffDay") sm
              (ctx.schedule.startDate + o) (ctx.schedule.startDate + o + 1)
              (ctx.schedule.startDate + o + 2) := by
  constructor
  · intro hv
    simp only [nightOffDayConstraint, List.mem_flatMap] at hv
    obtain ⟨sm, hsm, hv⟩ := hv
    simp only [nightOffDayStaffViolations, List.mem_filterMap, List.mem_range] at hv
    obtain ⟨k, hk, hv⟩ := hv
    split at hv
    · next hpat =>
      split at hv
      · next hin =>
        simp only [Bool.and_eq_true, beq_iff_eq] at hpat
        simp only [Bool.and_eq_true, decide_eq_true_eq] at hin
        refine ⟨sm, hsm, (k : Int) - 2, by omega, by omega, hpat.1.1, hpat.1.2, hpat.2,
          (Option.some.inj hv).symm⟩
      · exact absurd hv (by simp)
    · exact absurd hv (by simp)
  · rintro ⟨sm, hsm, o, h2, h25, hN, hOFF, hD, rfl⟩
    simp only [nightOffDayConstraint, List.mem_flatMap]
    refine ⟨sm, hsm, ?_⟩
    unfold nightOffDayStaffViolations
    refine List.mem_filterMap.mpr
      ⟨(o + 2).toNat, List.mem_range.mpr (show (o + 2).toNat < 30 by omega), ?_⟩
    dsimp only
    have hk : (((o + 2).toNat : Nat) : Int) - 2 = o := by omega
    rw [hk]
    have hc1 : (getShiftForStaffOnDate (ctx.previousPeriodEnd ++ ctx.schedule.assignments)
          sm.id (ctx.schedule.startDate + o) == some Shift.N &&
        (getShiftForStaffOnDate (ctx.previousPeriodEnd ++ ctx.schedule.assignments)
          sm.id (ctx.schedule.startDate + o + 1) == some Shift.OFF) &&
        (getShiftForStaffOnDate (ctx.previousPeriodEnd ++ ctx.schedule.assignments)
          sm.id (ctx.schedule.startDate + o + 2) == some Shift.D)) = true := by
      simp [hN, hOFF, hD]
    rw [if_pos hc1, if_pos (by simp only [Bool.and_eq_true, decide_eq_true_eq]; omega)]

/-- Claim C4: the night-off-day check emits a violation exactly for the
windows at offsets −2…25 whose shifts are N, Off, D in order (the D then
automatically lies in the period, and the violation's `dates` lists all
three dates); a window whose D falls outside the 28-day period (offsets
26, 27) yields no violation. -/
theorem nightOffDay_window_exactness :
    (∀ (ctx : ConstraintContext) (v : Violation),
      v ∈ (nightOffDayConstraint.check ctx).violations ↔
        ∃ sm ∈ ctx.staff, ∃ o : Int, -2 ≤ o ∧ o ≤ 25 ∧
          getShiftForStaffOnDate (ctx.previousPeriodEnd ++ ctx.schedule.assignments) sm.id
            (ctx.schedule.startDate + o) = some Shift.N ∧
          getShiftForStaffOnDate (ctx.previousPeriodEnd ++ ctx.schedule.assignments) sm.id
            (ctx.schedule.startDate + o + 1) = some Shift.OFF ∧
          getShiftForStaffOnDate (ctx.previousPeriodEnd ++ ctx.schedule.assignments) sm.id
            (ctx.schedule.startDate + o + 2) = some Shift.D ∧
          v = mkNightOffDayViolation (getSeverityFromConfig ctx.config "nightOffDay") sm
                (ctx.schedule.startDate + o) (ctx.schedule.startDate + o + 1)
                (ctx.schedule.startDate + o + 2)) ∧
    (∀ (ctx : ConstraintContext) (sm : Staff) (o : Int), 25 < o →
      mkNightOffDayViolation (getSeverityFromConfig ctx.config "nightOffDay") sm
          (ctx.schedule.startDate + o) (ctx.schedule.startDate + o + 1)
          (ctx.schedule.startDate + o + 2) ∉
        (nightOffDayConstraint.check ctx).violations) := by
  refine ⟨nightOffDay_mem_iff, ?_⟩
  intro ctx sm o ho hmem
  rw [nightOffDay_mem_iff] at hmem
  obtain ⟨sm', _, o', _, h25, _, _, _, heq⟩ := hmem
  simp only [mkNightOffDayViolation, Violation.mk.injEq, ViolationContext.mk.injEq,
    Option.some.injEq, List.cons.injEq] at heq
  omega

/-- Witness for Claim C4 at concrete inputs: the boundary N-Off-D pattern
(N on 01-04, Off on 01-05 in the trail, D on 01-06) in the membership
direction, and the no-violation direction at offset 26. -/
theorem nightOffDay_window_exactness_witness :
    mkNightOffDayViolation Severity.error staff1 date0104 date0105 date0106 ∈
      (nightOffDayConstraint.check
        (buildContext ⟨date0106, [⟨"staff-1", date0106, .D, none⟩]⟩ [staff1]
          getDefaultConfig
          [⟨"staff-1", date0104, .N, none⟩, ⟨"staff-1", date0105, .OFF, none⟩])).violations ∧
    mkNightOffDayViolation Severity.error staff1 (date0106 + 26) (date0106 + 27)
        (date0106 + 28) ∉
      (nightOffDayConstraint.check
        (buildContext ⟨date0106, [⟨"staff-1", date0106, .D, none⟩]⟩ [staff1]
          getDefaultConfig
          [⟨"staff-1", date0104, .N, none⟩, ⟨"staff-1", date0105, .OFF, none⟩])).violations := by
  constructor
  · exact (nightOffDay_window_exactness.1 _ _).mpr
      ⟨staff1, by decide, -2, by decide, by decide, by decide, by decide, by decide, by decide⟩
  · exact nightOffDay_window_exactness.2 _ staff1 26 (by decide)

/-! ## Claim C8 -/

/-- Claim C8 counterexample: with `max-consecutive-off` enabled
(`maxDays = 2`), OFF on 01-06 and 01-07, nothing on 01-08 and OFF on
01-09, the check emits a violation on 01-09 with streak start 01-06 —
the unassigned 01-08 did not reset the running count, contradicting the
claimed "resets … including a day with no assignment" and the claimed
symmetry with `max-consecutive-work` (which does reset on unassigned). -/
theorem maxConsecutiveOff_gap_does_not_reset :
    (maxConsecutiveOffConstraint.check ctxC8).violations =
      [mkMaxConsecutiveOffViolation staff1 date0109 (some date0106)] ∧
    getShiftForStaffOnDate
      (ctxC8.previousPeriodEnd ++ ctxC8.schedule.assignments) staff1.id date0108 = none := by
  exact ⟨by decide, by decide⟩

theorem maxConsecutiveOffGo_days (all : List ShiftAssignment) (sm : Staff) (maxDays : Int) :
    ∀ (ds : List Int) (count : Nat) (startD : Option Int),
      (maxConsecutiveOffGo all sm maxDays ds count startD).map
          (fun v => (v.context.staffId, v.context.date)) =
        (offRunDays (getShiftForStaffOnDate all sm.id) maxDays ds count).map
          (fun d => (some sm.id, some d)) := by
  intro ds
  induction ds with
  | nil => intro count startD; simp [maxConsecutiveOffGo, offRunDays]
  | cons d ds ih =>
    intro count startD
    rw [maxConsecutiveOffGo, offRunDays]
    cases hs : getShiftForStaffOnDate all sm.id d with
    | none => exact ih count startD
    | some s =>
      cases s with
      | OFF =>
        dsimp only
        split
        · simp [ih, mkMaxConsecutiveOffViolation]
        · simp [ih]
      | D => exact ih 0 none
      | E => exact ih 0 none
      | N => exact ih 0 none

/-- Claim C8, amended: the max-consecutive-off check is symmetric to
max-consecutive-work with the predicate "assignment is Off", except on
unassigned days: the running count (seeded by `countTrailingOffDays`)
increments on an Off day, resets on an *assigned* non-Off day, and holds
unchanged on a day with no assignment; one warning is emitted on every
day on which the count exceeds `softConstraints.maxConsecutiveOff.maxDays`
(default 2). -/
theorem maxConsecutiveOff_run_characterization :
    (∀ ctx : ConstraintContext,
      ctx.config.softConstraints.maxConsecutiveOff.enabled = true →
      (maxConsecutiveOffConstraint.check ctx).violations.map
          (fun v => (v.context.staffId, v.context.date)) =
        ctx.staff.flatMap fun sm =>
          (offRunDays
              (getShiftForStaffOnDate (ctx.previousPeriodEnd ++ ctx.schedule.assignments) sm.id)
              (ctx.config.softConstraints.maxConsecutiveOff.maxDays.getD 2)
              (periodDates ctx.schedule.startDate)
              (countTrailingOffDays ctx.previousPeriodEnd sm.id ctx.schedule.startDate)).map
            (fun d => (some sm.id, some d))) ∧
    (∀ (ctx : ConstraintContext) (v : Violation),
      v ∈ (maxConsecutiveOffConstraint.check ctx).violations →
        v.severity = Severity.warning) := by
  refine ⟨?_, severity_check_maxConsecutiveOff⟩
  intro ctx hen
  simp only [maxConsecutiveOffConstraint, hen]
  rw [if_neg (by simp)]
  dsimp only
  rw [List.map_flatMap]
  exact List.flatMap_congr fun sm _ => maxConsecutiveOffGo_days _ _ _ _ _ _

/-- Witness for the amended Claim C8, at the concrete gap scenario: the
violation days projected from the check equal the specified run days. -/
theorem maxConsecutiveOff_run_characterization_witness :
    (maxConsecutiveOffConstraint.check ctxC8).violations.map
        (fun v => (v.context.staffId, v.context.date)) =
      [(some "staff-1", some date0109)] := by
  rw [maxConsecutiveOff_run_characterization.1 ctxC8 (by decide)]
  decide

/-! ## Sorting and lookup infrastructure (for Claims C3 and C7) -/

theorem perm_insertDesc (a : ShiftAssignment) (l : List ShiftAssignment) :
    List.Perm (insertDesc a l) (a :: l) := by
  induction l with
  | nil => rfl
  | cons b l ih =>
    rw [insertDesc]
    split
    · rfl
    · exact (ih.cons b).trans (List.Perm.swap a b l)

theorem perm_sortDesc (l : List ShiftAssignment) : List.Perm (sortDesc l) l := by
  suffices h : ∀ acc, List.Perm (l.foldl (fun acc a => insertDesc a acc) acc) (l ++ acc) by
    simpa using h []
  induction l with
  | nil => intro acc; rfl
  | cons x xs ih =>
    intro acc
    refine ((ih (insertDesc x acc)).trans ?_)
    exact (List.Perm.append_left xs (perm_insertDesc x acc)).trans List.perm_middle

theorem mem_insertDesc {x a : ShiftAssignment} {l : List ShiftAssignment} :
    x ∈ insertDesc a l ↔ x = a ∨ x ∈ l := by
  rw [(perm_insertDesc a l).mem_iff, List.mem_cons]

theorem sorted_insertDesc {a : ShiftAssignment} {l : List ShiftAssignment}
    (h : l.Pairwise fun x y => y.date ≤ x.date) :
    (insertDesc a l).Pairwise fun x y => y.date ≤ x.date := by
  induction l with
  | nil => simp [insertDesc]
  | cons b l ih =>
    rw [insertDesc]
    rcases List.pairwise_cons.mp h with ⟨hb, hl⟩
    split
    · next hba =>
      exact List.pairwise_cons.mpr
        ⟨by intro x hx
            rcases List.mem_cons.mp hx with rfl | hx
            · exact le_of_lt hba
            · exact le_trans (hb x hx) (le_of_lt hba), h⟩
    · next hba =>
      refine List.pairwise_cons.mpr ⟨?_, ih hl⟩
      intro x hx
      rcases mem_insertDesc.mp hx with rfl | hx
      · exact le_of_not_lt hba
      · exact hb x hx

theorem sorted_sortDesc (l : List ShiftAssignment) :
    (sortDesc l).Pairwise fun x y => y.date ≤ x.date := by
  suffices h : ∀ acc, acc.Pairwise (fun x y => y.date ≤ x.date) →
      (l.foldl (fun acc a => insertDesc a acc) acc).Pairwise fun x y => y.date ≤ x.date by
    exact h [] (by simp)
  induction l with
  | nil => intro acc hacc; exact hacc
  | cons x xs ih => intro acc hacc; exact ih (insertDesc x acc) (sorted_insertDesc hacc)

theorem perm_insertAsc (a : ShiftAssignment) (l : List ShiftAssignment) :
    List.Perm (insertAsc a l) (a :: l) := by
  induction l with
  | nil => rfl
  | cons b l ih =>
    rw [insertAsc]
    split
    · rfl
    · exact (ih.cons b).trans (List.Perm.swap a b l)

theorem mem_insertAsc {x a : ShiftAssignment} {l : List ShiftAssignment} :
    x ∈ insertAsc a l ↔ x = a ∨ x ∈ l := by
  rw [(perm_insertAsc a l).mem_iff, List.mem_cons]

theorem sortDesc_append_singleton (l : List ShiftAssignment) (a : ShiftAssignment) :
    sortDesc (l ++ [a]) = insertDesc a (sortDesc l) := by
  simp [sortDesc, List.foldl_append]

theorem sortAsc_append_singleton (l : List ShiftAssignment) (a : ShiftAssignment) :
    sortAsc (l ++ [a]) = insertAsc a (sortAsc l) := by
  simp [sortAsc, List.foldl_append]

theorem lookupDate_cons {a : ShiftAssignment} {l : List ShiftAssignment} {d : Int} :
    lookupDate (a :: l) d =
      if a.date = d then some a.shift else lookupDate l d := by
  by_cases h : a.date = d
  · simp [lookupDate, List.find?_cons, h]
  · simp [lookupDate, List.find?_cons, h]

theorem lookupDate_eq_some_shift {l : List ShiftAssignment} {d : Int} {t : Shift}
    (h : lookupDate l d = some t) : ∃ x ∈ l, x.date = d ∧ x.shift = t := by
  unfold lookupDate at h
  cases hf : l.find? fun a => a.date == d with
  | none => rw [hf] at h; exact absurd h (by simp)
  | some x =>
    rw [hf] at h
    refine ⟨x, List.mem_of_find?_eq_some hf, by simpa using List.find?_some hf, ?_⟩
    simpa using h

theorem getShift_eq_lookupDate (assignments : List ShiftAssignment) (staffId : String)
    (d : Int) :
    getShiftForStaffOnDate assignments staffId d =
      lookupDate (assignments.filter fun a => a.staffId == staffId) d := by
  induction assignments with
  | nil => rfl
  | cons a l ih =>
    by_cases hs : a.staffId = staffId
    · by_cases hd : a.date = d
      · simp [getShiftForStaffOnDate, lookupDate, List.find?_cons, List.filter_cons, hs, hd]
      · simpa [getShiftForStaffOnDate, lookupDate, List.find?_cons, List.filter_cons, hs, hd]
          using ih
    · simpa [getShiftForStaffOnDate, lookupDate, List.find?_cons, List.filter_cons, hs]
        using ih

theorem find?_eq_some_of_unique {p : ShiftAssignment → Bool} {l : List ShiftAssignment}
    (hu : ∀ x ∈ l, ∀ y ∈ l, p x = true → p y = true → x = y) (a : ShiftAssignment) :
    l.find? p = some a ↔ a ∈ l ∧ p a = true := by
  constructor
  · intro h
    exact ⟨List.mem_of_find?_eq_some h, List.find?_some h⟩
  · rintro ⟨hmem, hpa⟩
    induction l with
    | nil => simp at hmem
    | cons b l ih =>
      by_cases hpb : p b = true
      · rw [List.find?_cons_of_pos _ hpb]
        rcases List.mem_cons.mp hmem with rfl | hmem'
        · rfl
        · exact congrArg some (hu b (List.mem_cons_self b l) a (List.mem_cons.mpr (.inr hmem'))
            hpb hpa)
      · rw [List.find?_cons_of_neg _ hpb]
        rcases List.mem_cons.mp hmem with rfl | hmem'
        · exact absurd hpa hpb
        · exact ih (fun x hx y hy => hu x (List.mem_cons.mpr (.inr hx))
            y (List.mem_cons.mpr (.inr hy))) hmem'

theorem distinct_dates_of_nodup_map {l : List ShiftAssignment}
    (h : (l.map (·.date)).Nodup) : l.Pairwise fun x y => x.date ≠ y.date := by
  rw [List.Nodup, List.pairwise_map] at h
  exact h

theorem lookupDate_perm {l l' : List ShiftAssignment} (hperm : List.Perm l l')
    (hd : l.Pairwise fun x y => x.date ≠ y.date) (d : Int) :
    lookupDate l d = lookupDate l' d := by
  have hd' : l'.Pairwise fun x y => x.date ≠ y.date :=
    (hperm.pairwise_iff fun h heq => h heq.symm).mp hd
  have hu : ∀ (m : List ShiftAssignment), (m.Pairwise fun x y => x.date ≠ y.date) →
      ∀ x ∈ m, ∀ y ∈ m, (x.date == d) = true → (y.date == d) = true → x = y := by
    intro m hm x hx y hy hxd hyd
    by_contra hne
    have hsymm : Symmetric fun x y : ShiftAssignment => x.date ≠ y.date := by
      intro u w h heq
      exact h heq.symm
    exact List.Pairwise.forall hsymm hm hx hy hne
      (by simp only [beq_iff_eq] at hxd hyd; rw [hxd, hyd])
  unfold lookupDate
  cases hf : l.find? fun a => a.date == d with
  | none =>
    rw [List.find?_eq_none] at hf
    have : l'.find? (fun a => a.date == d) = none :=
      List.find?_eq_none.mpr fun x hx => hf x (hperm.mem_iff.mpr hx)
    rw [this]
  | some x =>
    have hx := (find?_eq_some_of_unique (hu l hd) x).mp hf
    have : l'.find? (fun a => a.date == d) = some x :=
      (find?_eq_some_of_unique (hu l' hd') x).mpr ⟨hperm.mem_iff.mp hx.1, hx.2⟩
    rw [this]

/-- The walk of `countTrailingGo` over a descending-sorted, duplicate-free
previous-period list whose dates all lie at or before the expected date
computes exactly the length of the continuous chain of `target`-shift
days ending at `e`: every day in the counted range is assigned the target
shift, and the day just past the count is not (a non-target assignment or
a gap breaks the chain). -/
theorem countTrailingGo_chain (t : Shift) :
    ∀ (L : List ShiftAssignment) (e : Int),
      (L.Pairwise fun x y => y.date ≤ x.date) →
      (L.Pairwise fun x y => x.date ≠ y.date) →
      (∀ a ∈ L, a.date ≤ e) →
      (∀ j : Nat, j < countTrailingGo t L e → lookupDate L (e - (j : Int)) = some t) ∧
        lookupDate L (e - (countTrailingGo t L e : Int)) ≠ some t := by
  intro L
  induction L with
  | nil =>
    intro e _ _ _
    exact ⟨fun j hj => by simp [countTrailingGo] at hj, by simp [lookupDate]⟩
  | cons a L ih =>
    intro e hsort hdist hbound
    rcases List.pairwise_cons.mp hsort with ⟨hle, hsort'⟩
    rcases List.pairwise_cons.mp hdist with ⟨hne, hdist'⟩
    have hae : a.date ≤ e := hbound a (List.mem_cons_self a L)
    rw [countTrailingGo]
    by_cases h1 : a.date = e ∧ a.shift = t
    · rw [if_pos (by simp [h1.1, h1.2])]
      have hbound' : ∀ x ∈ L, x.date ≤ e - 1 := by
        intro x hx
        have h2 := hle x hx
        have h3 := hne x hx
        omega
      obtain ⟨ihA, ihB⟩ := ih (e - 1) hsort' hdist' hbound'
      constructor
      · intro j hj
        cases j with
        | zero =>
          rw [Nat.cast_zero, sub_zero, lookupDate_cons, if_pos h1.1, h1.2]
        | succ j' =>
          have hj' : j' < countTrailingGo t L (e - 1) := by omega
          rw [lookupDate_cons, if_neg (by push_cast; omega)]
          have heq : e - ((j' + 1 : Nat) : Int) = (e - 1) - (j' : Int) := by push_cast; ring
          rw [heq]
          exact ihA j' hj'
      · have heq : e - ((1 + countTrailingGo t L (e - 1) : Nat) : Int) =
            (e - 1) - (countTrailingGo t L (e - 1) : Int) := by push_cast; ring
        rw [lookupDate_cons, if_neg (by push_cast; omega), heq]
        exact ihB
    · rw [if_neg (by simp only [Bool.and_eq_true, beq_iff_eq]; exact h1)]
      by_cases h2 : a.date = e
      · rw [if_pos (by simp [h2])]
        refine ⟨fun j hj => absurd hj (by omega), ?_⟩
        rw [Nat.cast_zero, sub_zero, lookupDate_cons, if_pos h2]
        intro hcontra
        exact h1 ⟨h2, Option.some.inj hcontra⟩
      · rw [if_neg (by simp [h2])]
        obtain ⟨ihA, ihB⟩ :=
          ih e hsort' hdist' fun x hx => hbound x (List.mem_cons.mpr (.inr hx))
        constructor
        · intro j hj
          rw [lookupDate_cons, if_neg ?_]
          · exact ihA j hj
          · intro heq
            cases j with
            | zero => exact h2 (by omega)
            | succ j' =>
              obtain ⟨x, hx, hxd, _⟩ := lookupDate_eq_some_shift (ihA (j' + 1) hj)
              exact hne x hx (by omega)
        · rw [lookupDate_cons]
          by_cases h3 : a.date = e - (countTrailingGo t L e : Int)
          · exfalso
            cases hn : countTrailingGo t L e with
            | zero => rw [hn] at h3; exact h2 (by omega)
            | succ n' =>
              obtain ⟨x, hx, hxd, _⟩ :=
                lookupDate_eq_some_shift (ihA n' (by omega))
              have hxa := hle x hx
              rw [hn] at h3
              omega
          · rw [if_neg h3]
            exact ihB

theorem consecutiveNightGo_days (all : List ShiftAssignment) (sm : Staff) (sev : Severity)
    (maxConsecutive : Int) :
    ∀ (ds : List Int) (count : Nat) (startD : Option Int),
      (consecutiveNightGo all sm sev maxConsecutive ds count startD).map
          (fun v => (v.context.staffId, v.context.date)) =
        (nightRunDays (getShiftForStaffOnDate all sm.id) maxConsecutive ds count).map
          (fun d => (some sm.id, some d)) := by
  intro ds
  induction ds with
  | nil => intro count startD; simp [consecutiveNightGo, nightRunDays]
  | cons d ds ih =>
    intro count startD
    rw [consecutiveNightGo, nightRunDays]
    cases hs : getShiftForStaffOnDate all sm.id d with
    | none => simpa using ih 0 none
    | some s =>
      cases s with
      | N =>
        dsimp only
        rw [if_pos rfl]
        split
        · simp [ih, mkConsecutiveNightViolation]
        · simp [ih]
      | D => simpa using ih 0 none
      | E => simpa using ih 0 none
      | OFF => simpa using ih 0 none

/-! ## Claim C3 -/

/-- Claim C3: the consecutive-night check seeds its running count with the
trailing continuous chain of N assignments ending at day −1 of the
previous-period trail (broken by any non-N assignment or gap) — stated
for trails whose per-staff dates are distinct and before the period
start; it emits one violation for each current-period day on which the
running count (reset by any non-N day) exceeds `maxConsecutiveNights`;
and on the concrete scenario (limit 4, trail N on 01-04 and 01-05,
N on 01-06…08) exactly one violation is emitted, on 2025-01-08, with
`dates` `[2025-01-04, 2025-01-08]`. -/
theorem consecutiveNight_seed_and_emission :
    (∀ (previousAssignments : List ShiftAssignment) (staffId : String)
        (periodStartDate : Int),
      ((previousAssignments.filter fun a => a.staffId == staffId).map (·.date)).Nodup →
      (∀ a ∈ previousAssignments.filter fun a => a.staffId == staffId,
        a.date < periodStartDate) →
      (∀ j : Nat, j < countTrailingNights previousAssignments staffId periodStartDate →
        getShiftForStaffOnDate previousAssignments staffId
          (periodStartDate - 1 - (j : Int)) = some Shift.N) ∧
      getShiftForStaffOnDate previousAssignments staffId
          (periodStartDate - 1 -
            (countTrailingNights previousAssignments staffId periodStartDate : Int)) ≠
        some Shift.N) ∧
    (∀ ctx : ConstraintContext,
      (consecutiveNightConstraint.check ctx).violations.map
          (fun v => (v.context.staffId, v.context.date)) =
        ctx.staff.flatMap fun sm =>
          (nightRunDays
              (getShiftForStaffOnDate (ctx.previousPeriodEnd ++ ctx.schedule.assignments)
                sm.id)
              ctx.config.maxConsecutiveNights (periodDates ctx.schedule.startDate)
              (countTrailingNights ctx.previousPeriodEnd sm.id ctx.schedule.startDate)).map
            (fun d => (some sm.id, some d))) ∧
    (consecutiveNightConstraint.check ctxC3).violations =
      [mkConsecutiveNightViolation Severity.error staff1 date0108 (some date0104)] := by
  refine ⟨?_, ?_, by decide⟩
  · intro prev sid start hnodup hlt
    have hdistF : (prev.filter fun a => a.staffId == sid).Pairwise
        fun x y => x.date ≠ y.date := distinct_dates_of_nodup_map hnodup
    have hperm := perm_sortDesc (prev.filter fun a => a.staffId == sid)
    have hdistL : (sortDesc (prev.filter fun a => a.staffId == sid)).Pairwise
        fun x y => x.date ≠ y.date :=
      (hperm.pairwise_iff fun h heq => h heq.symm).mpr hdistF
    have hboundL : ∀ x ∈ sortDesc (prev.filter fun a => a.staffId == sid),
        x.date ≤ start - 1 := by
      intro x hx
      have := hlt x (hperm.mem_iff.mp hx)
      omega
    obtain ⟨hA, hB⟩ := countTrailingGo_chain Shift.N
      (sortDesc (prev.filter fun a => a.staffId == sid)) (start - 1)
      (sorted_sortDesc _) hdistL hboundL
    have hlook : ∀ d, getShiftForStaffOnDate prev sid d =
        lookupDate (sortDesc (prev.filter fun a => a.staffId == sid)) d := by
      intro d
      rw [getShift_eq_lookupDate]
      exact lookupDate_perm hperm.symm hdistF d
    constructor
    · intro j hj
      rw [hlook]
      exact hA j hj
    · rw [hlook]
      exact hB
  · intro ctx
    simp only [consecutiveNightConstraint]
    rw [List.map_flatMap]
    exact List.flatMap_congr fun sm _ => consecutiveNightGo_days _ _ _ _ _ _ _

/-- Witness for Claim C3's seed characterization at the scenario trail
(N on 01-04 and 01-05, staff-1, start 01-06, seed 2): day −1 is an N and
day −3 is not (the trail ends there). -/
theorem consecutiveNight_seed_and_emission_witness :
    getShiftForStaffOnDate ctxC3.previousPeriodEnd "staff-1"
        (date0106 - 1 - ((0 : Nat) : Int)) = some Shift.N ∧
    getShiftForStaffOnDate ctxC3.previousPeriodEnd "staff-1"
        (date0106 - 1 -
          (countTrailingNights ctxC3.previousPeriodEnd "staff-1" date0106 : Int)) ≠
      some Shift.N :=
  ⟨(consecutiveNight_seed_and_emission.1 ctxC3.previousPeriodEnd "staff-1" date0106
      (by decide) (by decide)).1 0 (by decide),
   (consecutiveNight_seed_and_emission.1 ctxC3.previousPeriodEnd "staff-1" date0106
      (by decide) (by decide)).2⟩

/-! ## Claim C9 -/

theorem buildImpactMap_lookup (impacts : List CellImpact) (k : String × Int) :
    (buildImpactMap impacts).lookup k =
      (impacts.find? fun imp => getCellKey imp.staffId imp.date == k).map (·.reason) := by
  suffices h : ∀ (l : List CellImpact) (m : List ((String × Int) × ImpactReason)),
      ((l.foldl
        (fun m impact =>
          let key := getCellKey impact.staffId impact.date
          if (m.lookup key).isSome then m else m ++ [(key, impact.reason)]) m).lookup k) =
        ((m.lookup k).or ((l.find? fun imp => getCellKey imp.staffId imp.date == k).map
          (·.reason))) by
    simpa [buildImpactMap] using h impacts []
  intro l
  induction l with
  | nil => intro m; simp
  | cons imp l ih =>
    intro m
    rw [List.foldl_cons]
    dsimp only
    by_cases hp : (getCellKey imp.staffId imp.date == k) = true
    · have hk : getCellKey imp.staffId imp.date = k := by simpa using hp
      rw [@List.find?_cons_of_pos CellImpact
        (fun i : CellImpact => getCellKey i.staffId i.date == k) imp l hp]
      by_cases hm : (m.lookup (getCellKey imp.staffId imp.date)).isSome = true
      · rw [if_pos hm, ih]
        rw [hk] at hm
        obtain ⟨r, hr⟩ := Option.isSome_iff_exists.mp hm
        rw [hr]
        rfl
      · rw [if_neg hm, ih, List.lookup_append]
        rw [hk] at hm
        have hnone : m.lookup k = none := by
          cases hl : m.lookup k
          · rfl
          · rw [hl] at hm; simp at hm
        rw [hnone]
        have hsing : ([(getCellKey imp.staffId imp.date, imp.reason)].lookup k) =
            some imp.reason := by
          simp [List.lookup, hk]
        simp [hsing]
    · rw [@List.find?_cons_of_neg CellImpact
        (fun i : CellImpact => getCellKey i.staffId i.date == k) imp l hp]
      by_cases hm : (m.lookup (getCellKey imp.staffId imp.date)).isSome = true
      · rw [if_pos hm, ih]
      · rw [if_neg hm, ih, List.lookup_append]
        have hkk : (k == getCellKey imp.staffId imp.date) = false := by
          by_cases hkeq : k = getCellKey imp.staffId imp.date
          · exact absurd (by simp [hkeq]) hp
          · exact beq_eq_false_iff_ne.mpr hkeq
        have hsing : ([(getCellKey imp.staffId imp.date, imp.reason)].lookup k) = none := by
          simp [List.lookup, hkk]
        rw [hsing, Option.or_none]

theorem impactPriority_le_two (r : ImpactReason) : impactPriority r ≤ 2 := by
  cases r <;> decide

theorem mem_staffingImpacts {staff : List Staff} {targetCell : TargetCell} {imp : CellImpact}
    (h : imp ∈ staffingImpactsOf staff targetCell) :
    imp.reason = ImpactReason.staffing ∧ imp.staffId ≠ targetCell.staffId ∧
      imp.date = targetCell.date := by
  rcases List.mem_filterMap.mp h with ⟨s, _, hs⟩
  split at hs
  · next hid =>
    cases Option.some.inj hs
    exact ⟨rfl, by simpa using hid, rfl⟩
  · exact absurd hs (by simp)

theorem mem_sequenceImpacts {startDate : Int} {targetCell : TargetCell} {imp : CellImpact}
    (h : imp ∈ sequenceImpactsOf startDate targetCell) :
    imp.reason = ImpactReason.sequence ∧ imp.staffId = targetCell.staffId := by
  rcases List.mem_filterMap.mp h with ⟨kk, _, hs⟩
  dsimp only at hs
  split at hs
  · exact absurd hs (by simp)
  · split at hs
    · cases Option.some.inj hs
      exact ⟨rfl, rfl⟩
    · exact absurd hs (by simp)

theorem mem_juhuImpacts {startDate : Int} {staff : List Staff} {targetCell : TargetCell}
    {imp : CellImpact}
    (h : imp ∈ juhuImpactsOf startDate staff targetCell) :
    imp.reason = ImpactReason.juhu ∧ imp.staffId = targetCell.staffId := by
  unfold juhuImpactsOf at h
  rcases hf : staff.find? (fun s => s.id == targetCell.staffId) with _ | sm
  · rw [hf] at h; simp at h
  · rw [hf] at h
    rcases List.mem_filterMap.mp h with ⟨i, _, hs⟩
    dsimp only at hs
    split at hs
    · cases Option.some.inj hs
      exact ⟨rfl, rfl⟩
    · exact absurd hs (by simp)

theorem staffing_find?_none {staff : List Staff} {targetCell : TargetCell}
    {k : String × Int} (hk1 : k.1 = targetCell.staffId) :
    (staffingImpactsOf staff targetCell).find?
      (fun i => getCellKey i.staffId i.date == k) = none := by
  apply List.find?_eq_none.mpr
  intro x hx hpx
  obtain ⟨_, hxsid, _⟩ := mem_staffingImpacts hx
  apply hxsid
  have hxk : getCellKey x.staffId x.date = k := by simpa using hpx
  have : x.staffId = k.1 := by rw [← hxk]; rfl
  rw [this, hk1]

/-- Claim C9: folding `calculateCellImpact` with `buildImpactMap` assigns
every affected cell key the highest-priority reason among its impact
records, under `sequence > juhu > staffing`; unaffected keys are absent;
and a period date on the target staff member's juhu weekday that also
lies within ±2 days of the target is tagged `sequence`. -/
theorem impactMap_priority_resolution :
    (∀ (schedule : Schedule) (staff : List Staff) (targetCell : TargetCell)
        (k : String × Int) (r : ImpactReason),
      (buildImpactMap (calculateCellImpact schedule staff targetCell)).lookup k = some r →
      (∃ imp ∈ calculateCellImpact schedule staff targetCell,
        getCellKey imp.staffId imp.date = k ∧ imp.reason = r) ∧
      ∀ imp ∈ calculateCellImpact schedule staff targetCell,
        getCellKey imp.staffId imp.date = k →
          impactPriority imp.reason ≤ impactPriority r) ∧
    (∀ (schedule : Schedule) (staff : List Staff) (targetCell : TargetCell)
        (k : String × Int),
      (buildImpactMap (calculateCellImpact schedule staff targetCell)).lookup k = none →
      ∀ imp ∈ calculateCellImpact schedule staff targetCell,
        getCellKey imp.staffId imp.date ≠ k) ∧
    (∀ (schedule : Schedule) (staff : List Staff) (targetCell : TargetCell)
        (sm : Staff) (d : Int),
      staff.find? (fun s => s.id == targetCell.staffId) = some sm →
      some (dayOfWeek d) = sm.juhuDay →
      schedule.startDate ≤ d → d ≤ schedule.startDate + 27 →
      d ≠ targetCell.date → -2 ≤ d - targetCell.date → d - targetCell.date ≤ 2 →
      (buildImpactMap (calculateCellImpact schedule staff targetCell)).lookup
          (getCellKey targetCell.staffId d) = some ImpactReason.sequence) := by
  refine ⟨?_, ?_, ?_⟩
  · intro schedule staff targetCell k r hr
    rw [buildImpactMap_lookup] at hr
    cases hf : (calculateCellImpact schedule staff targetCell).find?
        (fun i => getCellKey i.staffId i.date == k) with
    | none => rw [hf] at hr; exact absurd hr (by simp)
    | some imp₀ =>
      rw [hf] at hr
      replace hr : imp₀.reason = r := by simpa using hr
      have hmem₀ := List.mem_of_find?_eq_some hf
      have hkey₀ : getCellKey imp₀.staffId imp₀.date = k := by simpa using List.find?_some hf
      refine ⟨⟨imp₀, hmem₀, hkey₀, hr⟩, ?_⟩
      intro imp hmem hkey
      rw [calculateCellImpact] at hmem
      have hpimp : (fun i : CellImpact => getCellKey i.staffId i.date == k) imp = true := by
        simpa using hkey
      rcases List.mem_append.mp hmem with hmem' | hJ
      · rcases List.mem_append.mp hmem' with hS | hQ
        · rw [(mem_staffingImpacts hS).1]
          exact Nat.zero_le _
        · obtain ⟨hseq, hsid⟩ := mem_sequenceImpacts hQ
          have hk1 : k.1 = targetCell.staffId := by
            rw [← hkey, ← hsid]; rfl
          rw [calculateCellImpact, List.find?_append, List.find?_append,
            staffing_find?_none hk1] at hf
          cases hfq : (sequenceImpactsOf schedule.startDate targetCell).find?
              (fun i => getCellKey i.staffId i.date == k) with
          | none => exact absurd hpimp ((List.find?_eq_none.mp hfq) imp hQ)
          | some q =>
            rw [hfq] at hf
            have hq : q = imp₀ := by simpa using hf
            have hqr := (mem_sequenceImpacts (List.mem_of_find?_eq_some hfq)).1
            rw [hseq, ← hr, ← hq, hqr]
      · obtain ⟨hjuhu, hsid⟩ := mem_juhuImpacts hJ
        have hk1 : k.1 = targetCell.staffId := by
          rw [← hkey, ← hsid]; rfl
        rw [calculateCellImpact, List.find?_append, List.find?_append,
          staffing_find?_none hk1] at hf
        rw [hjuhu, ← hr]
        cases hfq : (sequenceImpactsOf schedule.startDate targetCell).find?
            (fun i => getCellKey i.staffId i.date == k) with
        | none =>
          rw [hfq] at hf
          have himp₀ : imp₀ ∈ juhuImpactsOf schedule.startDate staff targetCell := by
            apply List.mem_of_find?_eq_some (p := fun i : CellImpact =>
              getCellKey i.staffId i.date == k)
            simpa using hf
          rw [(mem_juhuImpacts himp₀).1]
        | some q =>
          rw [hfq] at hf
          have hq : q = imp₀ := by simpa using hf
          rw [← hq, (mem_sequenceImpacts (List.mem_of_find?_eq_some hfq)).1]
          decide
  · intro schedule staff targetCell k h
    rw [buildImpactMap_lookup] at h
    have hf : (calculateCellImpact schedule staff targetCell).find?
        (fun i => getCellKey i.staffId i.date == k) = none := by
      cases hf' : (calculateCellImpact schedule staff targetCell).find?
          (fun i => getCellKey i.staffId i.date == k) with
      | none => rfl
      | some q => rw [hf'] at h; exact absurd h (by simp)
    intro imp hmem hkey
    exact (List.find?_eq_none.mp hf) imp hmem (by simpa using hkey)
  · intro schedule staff targetCell sm d hfind hjd hge hle hne hgein hlein
    rw [buildImpactMap_lookup, calculateCellImpact, List.find?_append, List.find?_append,
      staffing_find?_none rfl]
    have hQex : (CellImpact.mk targetCell.staffId d ImpactReason.sequence) ∈
        sequenceImpactsOf schedule.startDate targetCell := by
      unfold sequenceImpactsOf
      refine List.mem_filterMap.mpr
        ⟨(d - targetCell.date + 2).toNat,
         List.mem_range.mpr (show (d - targetCell.date + 2).toNat < 5 by omega), ?_⟩
      dsimp only
      have hoff : (((d - targetCell.date + 2).toNat : Nat) : Int) - 2 = d - targetCell.date := by
        omega
      rw [hoff, show targetCell.date + (d - targetCell.date) = d from by ring]
      rw [if_neg (by simp only [beq_iff_eq, sub_eq_zero]; simpa using hne)]
      rw [if_pos (by simp only [Bool.and_eq_true, decide_eq_true_eq]; exact ⟨hge, hle⟩)]
    cases hfq : (sequenceImpactsOf schedule.startDate targetCell).find?
        (fun i => getCellKey i.staffId i.date == getCellKey targetCell.staffId d) with
    | none =>
      exact absurd (by simp [getCellKey] :
          (fun i : CellImpact => getCellKey i.staffId i.date ==
            getCellKey targetCell.staffId d)
            (CellImpact.mk targetCell.staffId d ImpactReason.sequence) = true)
        ((List.find?_eq_none.mp hfq) _ hQex)
    | some q =>
      have hqr := (mem_sequenceImpacts (List.mem_of_find?_eq_some hfq)).1
      simp [hqr]

/-- Witness for Claim C9 at concrete inputs: target (staff-1, 2025-01-10,
a Friday), staff-1's juhu day Sunday; 2025-01-12 is a Sunday two days
after the target and inside the period, and the impact map tags it
`sequence`. -/
theorem impactMap_priority_resolution_witness :
    (buildImpactMap (calculateCellImpact ⟨date0106, []⟩ [staff1, ⟨"s2", "b", none⟩]
        ⟨"staff-1", date0110⟩)).lookup (getCellKey "staff-1" date0112) =
      some ImpactReason.sequence :=
  impactMap_priority_resolution.2.2 ⟨date0106, []⟩ [staff1, ⟨"s2", "b", none⟩]
    ⟨"staff-1", date0110⟩ staff1 date0112 (by decide) (by decide) (by decide) (by decide)
    (by decide) (by decide) (by decide)

/-! ## Trail-extension lemmas (for Claim C7) -/

theorem countTrailingGo_eq_zero {t : Shift} {M : List ShiftAssignment} {e : Int}
    (h : ∀ x ∈ M, x.date < e) : countTrailingGo t M e = 0 := by
  induction M with
  | nil => rfl
  | cons b M ih =>
    rw [countTrailingGo]
    have hb := h b (List.mem_cons_self b M)
    rw [if_neg (by simp only [Bool.and_eq_true, beq_iff_eq]; omega),
      if_neg (by simp only [beq_iff_eq]; omega)]
    exact ih fun x hx => h x (List.mem_cons.mpr (.inr hx))

theorem findTrailingStartGo_eq {t : Shift} {M : List ShiftAssignment} {e : Int}
    {last : Option Int} (h : ∀ x ∈ M, x.date < e) :
    findTrailingStartGo t M e last = last := by
  induction M with
  | nil => rfl
  | cons b M ih =>
    rw [findTrailingStartGo]
    have hb := h b (List.mem_cons_self b M)
    rw [if_neg (by simp only [Bool.and_eq_true, beq_iff_eq]; omega),
      if_neg (by simp only [beq_iff_eq]; omega)]
    exact ih fun x hx => h x (List.mem_cons.mpr (.inr hx))

theorem countTrailingGo_cons_hit {t : Shift} {b : ShiftAssignment}
    {M : List ShiftAssignment} {e : Int} (h : b.date = e ∧ b.shift = t) :
    countTrailingGo t (b :: M) e = 1 + countTrailingGo t M (e - 1) := by
  rw [countTrailingGo, if_pos (by simp [h.1, h.2])]

theorem countTrailingGo_cons_break {t : Shift} {b : ShiftAssignment}
    {M : List ShiftAssignment} {e : Int} (h1 : b.date = e) (h2 : b.shift ≠ t) :
    countTrailingGo t (b :: M) e = 0 := by
  rw [countTrailingGo,
    if_neg (by simp only [Bool.and_eq_true, beq_iff_eq]; rintro ⟨_, h⟩; exact h2 h),
    if_pos (by simpa using h1)]

theorem countTrailingGo_cons_skip {t : Shift} {b : ShiftAssignment}
    {M : List ShiftAssignment} {e : Int} (h : b.date ≠ e) :
    countTrailingGo t (b :: M) e = countTrailingGo t M e := by
  rw [countTrailingGo,
    if_neg (by simp only [Bool.and_eq_true, beq_iff_eq]; rintro ⟨h1, _⟩; exact h h1),
    if_neg (by simpa using h)]

theorem countTrailingGo_insertDesc_non {t : Shift} {a : ShiftAssignment}
    (hsh : a.shift ≠ t) :
    ∀ (L : List ShiftAssignment) (e : Int), (L.Pairwise fun x y => y.date ≤ x.date) →
      countTrailingGo t (insertDesc a L) e = countTrailingGo t L e := by
  intro L
  induction L with
  | nil =>
    intro e _
    rw [insertDesc]
    by_cases hd : a.date = e
    · rw [countTrailingGo_cons_break hd hsh]; rfl
    · rw [countTrailingGo_cons_skip hd]
  | cons b L ih =>
    intro e hsort
    rcases List.pairwise_cons.mp hsort with ⟨hble, hsort'⟩
    rw [insertDesc]
    split
    · next hba =>
      by_cases hd : a.date = e
      · rw [countTrailingGo_cons_break hd hsh]
        exact (countTrailingGo_eq_zero fun x hx => by
          rcases List.mem_cons.mp hx with rfl | hx
          · omega
          · have := hble x hx; omega).symm
      · rw [countTrailingGo_cons_skip hd]
    · next hba =>
      by_cases hbm : b.date = e ∧ b.shift = t
      · rw [countTrailingGo_cons_hit hbm, countTrailingGo_cons_hit hbm, ih (e - 1) hsort']
      · by_cases hd : b.date = e
        · have hbt : b.shift ≠ t := fun hc => hbm ⟨hd, hc⟩
          rw [countTrailingGo_cons_break hd hbt, countTrailingGo_cons_break hd hbt]
        · rw [countTrailingGo_cons_skip hd, countTrailingGo_cons_skip hd]
          exact ih e hsort'

theorem findTrailingStartGo_cons_hit {t : Shift} {b : ShiftAssignment}
    {M : List ShiftAssignment} {e : Int} {last : Option Int}
    (h : b.date = e ∧ b.shift = t) :
    findTrailingStartGo t (b :: M) e last = findTrailingStartGo t M (e - 1) (some e) := by
  rw [findTrailingStartGo, if_pos (by simp [h.1, h.2])]

theorem findTrailingStartGo_cons_break {t : Shift} {b : ShiftAssignment}
    {M : List ShiftAssignment} {e : Int} {last : Option Int}
    (h1 : b.date = e) (h2 : b.shift ≠ t) :
    findTrailingStartGo t (b :: M) e last = last := by
  rw [findTrailingStartGo,
    if_neg (by simp only [Bool.and_eq_true, beq_iff_eq]; rintro ⟨_, h⟩; exact h2 h),
    if_pos (by simpa using h1)]

theorem findTrailingStartGo_cons_skip {t : Shift} {b : ShiftAssignment}
    {M : List ShiftAssignment} {e : Int} {last : Option Int} (h : b.date ≠ e) :
    findTrailingStartGo t (b :: M) e last = findTrailingStartGo t M e last := by
  rw [findTrailingStartGo,
    if_neg (by simp only [Bool.and_eq_true, beq_iff_eq]; rintro ⟨h1, _⟩; exact h h1),
    if_neg (by simpa using h)]

theorem findTrailingStartGo_insertDesc_non {t : Shift} {a : ShiftAssignment}
    (hsh : a.shift ≠ t) :
    ∀ (L : List ShiftAssignment) (e : Int) (last : Option Int),
      (L.Pairwise fun x y => y.date ≤ x.date) →
      findTrailingStartGo t (insertDesc a L) e last = findTrailingStartGo t L e last := by
  intro L
  induction L with
  | nil =>
    intro e last _
    rw [insertDesc]
    by_cases hd : a.date = e
    · rw [findTrailingStartGo_cons_break hd hsh]; rfl
    · rw [findTrailingStartGo_cons_skip hd]
  | cons b L ih =>
    intro e last hsort
    rcases List.pairwise_cons.mp hsort with ⟨hble, hsort'⟩
    rw [insertDesc]
    split
    · next hba =>
      by_cases hd : a.date = e
      · rw [findTrailingStartGo_cons_break hd hsh]
        exact (findTrailingStartGo_eq fun x hx => by
          rcases List.mem_cons.mp hx with rfl | hx
          · omega
          · have := hble x hx; omega).symm
      · rw [findTrailingStartGo_cons_skip hd]
    · next hba =>
      by_cases hbm : b.date = e ∧ b.shift = t
      · rw [findTrailingStartGo_cons_hit hbm, findTrailingStartGo_cons_hit hbm]
        exact ih (e - 1) (some e) hsort'
      · by_cases hd : b.date = e
        · have hbt : b.shift ≠ t := fun hc => hbm ⟨hd, hc⟩
          rw [findTrailingStartGo_cons_break hd hbt, findTrailingStartGo_cons_break hd hbt]
        · rw [findTrailingStartGo_cons_skip hd, findTrailingStartGo_cons_skip hd]
          exact ih e last hsort'

theorem getShift_append_mid {l₁ l₂ : List ShiftAssignment} {a : ShiftAssignment}
    {sid : String} {d : Int} (h : ¬(a.staffId = sid ∧ a.date = d)) :
    getShiftForStaffOnDate (l₁ ++ a :: l₂) sid d =
      getShiftForStaffOnDate (l₁ ++ l₂) sid d := by
  unfold getShiftForStaffOnDate
  rw [List.find?_append, List.find?_append,
    @List.find?_cons_of_neg ShiftAssignment (fun x => x.staffId == sid && x.date == d) a l₂
      (by simp only [Bool.and_eq_true, beq_iff_eq]; exact h)]

theorem filter_staff_append_self {prev : List ShiftAssignment} {a : ShiftAssignment}
    {sid : String} (h : a.staffId = sid) :
    (prev ++ [a]).filter (fun x => x.staffId == sid) =
      prev.filter (fun x => x.staffId == sid) ++ [a] := by
  rw [List.filter_append]
  simp [List.filter, h]

theorem filter_staff_append_other {prev : List ShiftAssignment} {a : ShiftAssignment}
    {sid : String} (h : ¬a.staffId = sid) :
    (prev ++ [a]).filter (fun x => x.staffId == sid) =
      prev.filter (fun x => x.staffId == sid) := by
  rw [List.filter_append]
  have hb : (a.staffId == sid) = false := beq_eq_false_iff_ne.mpr h
  simp [List.filter, hb]

theorem shiftByDate_append {prev : List ShiftAssignment} {a : ShiftAssignment}
    {sid : String} {d : Int} :
    shiftByDate (prev ++ [a]) sid d =
      if a.staffId = sid ∧ a.date = d then some a.shift else shiftByDate prev sid d := by
  unfold shiftByDate
  rw [List.filter_append]
  split
  · next hm =>
    have : [a].filter (fun x => x.staffId == sid && x.date == d) = [a] := by
      simp [List.filter, hm.1, hm.2]
    rw [this, List.getLast?_append]
    rfl
  · next hm =>
    have hb : (a.staffId == sid && a.date == d) = false := by
      by_cases h1 : a.staffId = sid
      · by_cases h2 : a.date = d
        · exact absurd ⟨h1, h2⟩ hm
        · simp [h2]
      · simp [h1]
    have : [a].filter (fun x => x.staffId == sid && x.date == d) = [] := by
      simp [List.filter, hb]
    rw [this, List.append_nil]

theorem shiftByDate_none_of_unassigned {prev : List ShiftAssignment} {sid : String}
    {d : Int} (h : ∀ b ∈ prev, ¬(b.staffId = sid ∧ b.date = d)) :
    shiftByDate prev sid d = none := by
  unfold shiftByDate
  have hnil : prev.filter (fun x => x.staffId == sid && x.date == d) = [] := by
    rw [List.filter_eq_nil_iff]
    intro b hb
    simp only [Bool.and_eq_true, beq_iff_eq]
    exact h b hb
  rw [hnil]
  rfl

theorem countTrailingWorkGo_congr {prev prev' : List ShiftAssignment} {sid : String}
    (h : ∀ d : Int, shiftByDate prev' sid d = shiftByDate prev sid d ∨
      (shiftByDate prev sid d = none ∧ shiftByDate prev' sid d = some Shift.OFF)) :
    ∀ (fuel : Nat) (d : Int),
      countTrailingWorkGo prev' sid fuel d = countTrailingWorkGo prev sid fuel d := by
  intro fuel
  induction fuel with
  | zero => intro d; rfl
  | succ n ih =>
    intro d
    rw [countTrailingWorkGo, countTrailingWorkGo]
    rcases h d with heq | ⟨hnone, hoff⟩
    · rw [heq]
      cases hs : shiftByDate prev sid d with
      | none => rfl
      | some s =>
        dsimp only
        by_cases hso : (s != Shift.OFF) = true
        · rw [if_pos hso, if_pos hso, ih]
        · rw [if_neg hso, if_neg hso]
    · rw [hnone, hoff]
      rfl

theorem findConsecutiveWorkStartGo_congr {prev prev' : List ShiftAssignment} {sid : String}
    (h : ∀ d : Int, shiftByDate prev' sid d = shiftByDate prev sid d ∨
      (shiftByDate prev sid d = none ∧ shiftByDate prev' sid d = some Shift.OFF)) :
    ∀ (fuel : Nat) (d : Int) (last : Option Int),
      findConsecutiveWorkStartGo prev' sid fuel d last =
        findConsecutiveWorkStartGo prev sid fuel d last := by
  intro fuel
  induction fuel with
  | zero => intro d last; rfl
  | succ n ih =>
    intro d last
    rw [findConsecutiveWorkStartGo, findConsecutiveWorkStartGo]
    rcases h d with heq | ⟨hnone, hoff⟩
    · rw [heq]
      cases hs : shiftByDate prev sid d with
      | none => rfl
      | some s =>
        dsimp only
        by_cases hso : (s != Shift.OFF) = true
        · rw [if_pos hso, if_pos hso, ih]
        · rw [if_neg hso, if_neg hso]
    · rw [hnone, hoff]
      rfl

theorem countTrailingWorkGo_le {prev prev' : List ShiftAssignment} {sid : String}
    (h : ∀ d : Int, shiftByDate prev' sid d = shiftByDate prev sid d ∨
      (shiftByDate prev sid d = none ∧
        ∃ s, s ≠ Shift.OFF ∧ shiftByDate prev' sid d = some s)) :
    ∀ (fuel : Nat) (d : Int),
      countTrailingWorkGo prev sid fuel d ≤ countTrailingWorkGo prev' sid fuel d := by
  intro fuel
  induction fuel with
  | zero => intro d; exact le_refl 0
  | succ n ih =>
    intro d
    rw [countTrailingWorkGo, countTrailingWorkGo]
    rcases h d with heq | ⟨hnone, _⟩
    · rw [heq]
      cases hs : shiftByDate prev sid d with
      | none => exact le_refl 0
      | some s =>
        dsimp only
        by_cases hso : (s != Shift.OFF) = true
        · rw [if_pos hso, if_pos hso]
          exact Nat.add_le_add_left (ih (d - 1)) 1
        · rw [if_neg hso, if_neg hso]
    · rw [hnone]
      exact Nat.zero_le _

theorem countTrailingGo_le_insertDesc {t : Shift} {a : ShiftAssignment}
    (hsh : a.shift = t) :
    ∀ (L : List ShiftAssignment) (e : Int), (L.Pairwise fun x y => y.date ≤ x.date) →
      countTrailingGo t L e ≤ countTrailingGo t (insertDesc a L) e := by
  intro L
  induction L with
  | nil => intro e _; exact Nat.zero_le _
  | cons b L ih =>
    intro e hsort
    rcases List.pairwise_cons.mp hsort with ⟨hble, hsort'⟩
    rw [insertDesc]
    split
    · next hba =>
      by_cases hd : a.date = e
      · rw [countTrailingGo_cons_hit ⟨hd, hsh⟩]
        rw [countTrailingGo_eq_zero (M := b :: L) fun x hx => by
          rcases List.mem_cons.mp hx with rfl | hx
          · omega
          · have := hble x hx; omega]
        exact Nat.zero_le _
      · rw [countTrailingGo_cons_skip hd]
    · next hba =>
      by_cases hbm : b.date = e ∧ b.shift = t
      · rw [countTrailingGo_cons_hit hbm, countTrailingGo_cons_hit hbm]
        exact Nat.add_le_add_left (ih (e - 1) hsort') 1
      · by_cases hd : b.date = e
        · have hbt : b.shift ≠ t := fun hc => hbm ⟨hd, hc⟩
          rw [countTrailingGo_cons_break hd hbt, countTrailingGo_cons_break hd hbt]
        · rw [countTrailingGo_cons_skip hd, countTrailingGo_cons_skip hd]
          exact ih e hsort'

theorem trailingRunAux_le_length (t : Shift) : ∀ l : List ShiftAssignment,
    trailingRunAux t l ≤ l.length := by
  intro l
  induction l with
  | nil => exact le_refl 0
  | cons a l ih =>
    rw [trailingRunAux]
    split
    · simp only [List.length_cons]
      omega
    · exact Nat.zero_le _

theorem trailingRunAux_eq_length_iff (t : Shift) : ∀ l : List ShiftAssignment,
    trailingRunAux t l = l.length ↔ ∀ x ∈ l, x.shift = t := by
  intro l
  induction l with
  | nil => simp [trailingRunAux]
  | cons a l ih =>
    rw [trailingRunAux]
    by_cases ha : a.shift = t
    · rw [if_pos (by simpa using ha)]
      simp only [List.length_cons, List.mem_cons]
      constructor
      · intro h x hx
        rcases hx with rfl | hx
        · exact ha
        · exact (ih.mp (by omega)) x hx
      · intro h
        have := ih.mpr fun x hx => h x (.inr hx)
        omega
    · rw [if_neg (by simpa using ha)]
      constructor
      · intro h
        have := trailingRunAux_le_length t l
        simp only [List.length_cons] at h
        omega
      · intro h
        exact absurd (h a (List.mem_cons_self a l)) ha

theorem trailingRunAux_append (t : Shift) (X : List ShiftAssignment)
    (z : ShiftAssignment) :
    trailingRunAux t (X ++ [z]) =
      if trailingRunAux t X = X.length then
        X.length + (if z.shift == t then 1 else 0)
      else trailingRunAux t X := by
  induction X with
  | nil =>
    by_cases hz : (z.shift == t) = true <;> simp [trailingRunAux, hz]
  | cons a X ih =>
    have hle := trailingRunAux_le_length t X
    rw [List.cons_append, trailingRunAux]
    conv_rhs => rw [trailingRunAux]
    cases hab : a.shift == t with
    | true =>
      rw [if_pos rfl, ih, if_pos rfl]
      by_cases hf : trailingRunAux t X = X.length
      · rw [if_pos hf,
          if_pos (show 1 + trailingRunAux t X = (a :: X).length by
            rw [hf, List.length_cons]; omega)]
        rw [List.length_cons]
        cases z.shift == t <;> simp <;> omega
      · rw [if_neg hf,
          if_neg (show ¬(1 + trailingRunAux t X = (a :: X).length) by
            rw [List.length_cons]; omega)]
    | false =>
      rw [if_neg Bool.false_ne_true, if_neg Bool.false_ne_true,
        if_neg (show ¬((0 : Nat) = (a :: X).length) by
          rw [List.length_cons]; omega)]

theorem length_insertAsc (a : ShiftAssignment) (l : List ShiftAssignment) :
    (insertAsc a l).length = l.length + 1 := by
  rw [(perm_insertAsc a l).length_eq]
  rfl

theorem trailingSameShift_le_insertAsc {t : Shift} {a : ShiftAssignment}
    (hsh : a.shift = t) :
    ∀ l : List ShiftAssignment,
      trailingSameShift t l ≤ trailingSameShift t (insertAsc a l) := by
  intro l
  induction l with
  | nil =>
    rw [insertAsc]
    unfold trailingSameShift
    simp [trailingRunAux, hsh]
  | cons b bs ih =>
    rw [insertAsc]
    split
    · next hab =>
      unfold trailingSameShift
      rw [List.reverse_cons (a := a), trailingRunAux_append]
      split
      · next hfull =>
        rw [hfull]
        exact Nat.le_add_right _ _
      · exact le_refl _
    · next hab =>
      unfold trailingSameShift at ih ⊢
      rw [List.reverse_cons (a := b), List.reverse_cons (a := b),
        trailingRunAux_append, trailingRunAux_append]
      by_cases h1 : trailingRunAux t bs.reverse = bs.reverse.length
      · have hall : ∀ x ∈ (insertAsc a bs).reverse, x.shift = t := by
          intro x hx
          rw [List.mem_reverse] at hx
          rcases mem_insertAsc.mp hx with rfl | hx
          · exact hsh
          · exact (trailingRunAux_eq_length_iff t bs.reverse).mp h1 x
              (List.mem_reverse.mpr hx)
        have h2 : trailingRunAux t (insertAsc a bs).reverse =
            (insertAsc a bs).reverse.length :=
          (trailingRunAux_eq_length_iff t _).mpr hall
        rw [if_pos h1, if_pos h2, List.length_reverse, List.length_reverse,
          length_insertAsc]
        split <;> omega
      · rw [if_neg h1]
        by_cases h2 : trailingRunAux t (insertAsc a bs).reverse =
            (insertAsc a bs).reverse.length
        · rw [if_pos h2]
          have hle := trailingRunAux_le_length t bs.reverse
          rw [List.length_reverse, length_insertAsc]
          rw [List.length_reverse] at hle
          split <;> omega
        · rw [if_neg h2]
          exact ih

theorem periodDates_lb {s d : Int} (h : d ∈ periodDates s) : s ≤ d := by
  unfold periodDates at h
  rcases List.mem_map.mp h with ⟨i, _, rfl⟩
  omega

theorem checkResult_eq {v₁ v₂ : List Violation} (h : v₁ = v₂) :
    (⟨v₁.length == 0, v₁⟩ : ConstraintResult) = ⟨v₂.length == 0, v₂⟩ := by
  rw [h]

theorem getShift_snoc_mid {prev cur : List ShiftAssignment} {a : ShiftAssignment}
    {sid : String} {d : Int} (h : ¬(a.staffId = sid ∧ a.date = d)) :
    getShiftForStaffOnDate (prev ++ [a] ++ cur) sid d =
      getShiftForStaffOnDate (prev ++ cur) sid d := by
  have he : prev ++ [a] ++ cur = prev ++ a :: cur := by simp
  rw [he, getShift_append_mid h]

theorem consecutiveNightGo_congr {all₁ all₂ : List ShiftAssignment} {sm : Staff}
    {sev : Severity} {maxC : Int} :
    ∀ ds : List Int,
      (∀ d ∈ ds, getShiftForStaffOnDate all₂ sm.id d = getShiftForStaffOnDate all₁ sm.id d) →
      ∀ (c : Nat) (st : Option Int),
        consecutiveNightGo all₂ sm sev maxC ds c st =
          consecutiveNightGo all₁ sm sev maxC ds c st := by
  intro ds
  induction ds with
  | nil => intro _ c st; rfl
  | cons d ds ih =>
    intro h c st
    have hr : ∀ x ∈ ds,
        getShiftForStaffOnDate all₂ sm.id x = getShiftForStaffOnDate all₁ sm.id x :=
      fun x hx => h x (List.mem_cons_of_mem d hx)
    rw [consecutiveNightGo, consecutiveNightGo, h d (List.mem_cons_self d ds)]
    cases hs : getShiftForStaffOnDate all₁ sm.id d with
    | none => exact ih hr 0 none
    | some s => cases s <;> simp only [ih hr]

theorem maxConsecutiveWorkGo_congr {all₁ all₂ : List ShiftAssignment} {sm : Staff}
    {maxD : Int} :
    ∀ ds : List Int,
      (∀ d ∈ ds, getShiftForStaffOnDate all₂ sm.id d = getShiftForStaffOnDate all₁ sm.id d) →
      ∀ (c : Nat) (st : Option Int),
        maxConsecutiveWorkGo all₂ sm maxD ds c st =
          maxConsecutiveWorkGo all₁ sm maxD ds c st := by
  intro ds
  induction ds with
  | nil => intro _ c st; rfl
  | cons d ds ih =>
    intro h c st
    have hr : ∀ x ∈ ds,
        getShiftForStaffOnDate all₂ sm.id x = getShiftForStaffOnDate all₁ sm.id x :=
      fun x hx => h x (List.mem_cons_of_mem d hx)
    rw [maxConsecutiveWorkGo, maxConsecutiveWorkGo, h d (List.mem_cons_self d ds)]
    cases hs : getShiftForStaffOnDate all₁ sm.id d with
    | none => exact ih hr 0 none
    | some s => cases s <;> simp only [ih hr]

theorem maxConsecutiveOffGo_congr {all₁ all₂ : List ShiftAssignment} {sm : Staff}
    {maxD : Int} :
    ∀ ds : List Int,
      (∀ d ∈ ds, getShiftForStaffOnDate all₂ sm.id d = getShiftForStaffOnDate all₁ sm.id d) →
      ∀ (c : Nat) (st : Option Int),
        maxConsecutiveOffGo all₂ sm maxD ds c st =
          maxConsecutiveOffGo all₁ sm maxD ds c st := by
  intro ds
  induction ds with
  | nil => intro _ c st; rfl
  | cons d ds ih =>
    intro h c st
    have hr : ∀ x ∈ ds,
        getShiftForStaffOnDate all₂ sm.id x = getShiftForStaffOnDate all₁ sm.id x :=
      fun x hx => h x (List.mem_cons_of_mem d hx)
    rw [maxConsecutiveOffGo, maxConsecutiveOffGo, h d (List.mem_cons_self d ds)]
    cases hs : getShiftForStaffOnDate all₁ sm.id d with
    | none => exact ih hr c st
    | some s => cases s <;> simp only [ih hr]

theorem countTrailingSortDesc_snoc_non {t : Shift} {prev : List ShiftAssignment}
    {a : ShiftAssignment} (hsh : a.shift ≠ t) (sid : String) (e : Int) :
    countTrailingGo t (sortDesc ((prev ++ [a]).filter fun x => x.staffId == sid)) e =
      countTrailingGo t (sortDesc (prev.filter fun x => x.staffId == sid)) e := by
  by_cases hs : a.staffId = sid
  · rw [filter_staff_append_self hs, sortDesc_append_singleton]
    exact countTrailingGo_insertDesc_non hsh _ e (sorted_sortDesc _)
  · rw [filter_staff_append_other hs]

theorem findTrailingSortDesc_snoc_non {t : Shift} {prev : List ShiftAssignment}
    {a : ShiftAssignment} (hsh : a.shift ≠ t) (sid : String) (e : Int)
    (last : Option Int) :
    findTrailingStartGo t (sortDesc ((prev ++ [a]).filter fun x => x.staffId == sid)) e
        last =
      findTrailingStartGo t (sortDesc (prev.filter fun x => x.staffId == sid)) e last := by
  by_cases hs : a.staffId = sid
  · rw [filter_staff_append_self hs, sortDesc_append_singleton]
    exact findTrailingStartGo_insertDesc_non hsh _ e last (sorted_sortDesc _)
  · rw [filter_staff_append_other hs]

theorem countTrailingSortDesc_snoc_le {t : Shift} {prev : List ShiftAssignment}
    {a : ShiftAssignment} (hsh : a.shift = t) (sid : String) (e : Int) :
    countTrailingGo t (sortDesc (prev.filter fun x => x.staffId == sid)) e ≤
      countTrailingGo t (sortDesc ((prev ++ [a]).filter fun x => x.staffId == sid)) e := by
  by_cases hs : a.staffId = sid
  · rw [filter_staff_append_self hs, sortDesc_append_singleton]
    exact countTrailingGo_le_insertDesc hsh _ e (sorted_sortDesc _)
  · rw [filter_staff_append_other hs]

theorem consecutiveNight_check_snoc {ctx : ConstraintContext} {a : ShiftAssignment}
    (hsh : a.shift ≠ Shift.N) (hlt : a.date < ctx.schedule.startDate) :
    consecutiveNightConstraint.check
        {ctx with previousPeriodEnd := ctx.previousPeriodEnd ++ [a]} =
      consecutiveNightConstraint.check ctx := by
  simp only [consecutiveNightConstraint]
  refine checkResult_eq (List.flatMap_congr fun sm _ => ?_)
  have hseed : countTrailingNights (ctx.previousPeriodEnd ++ [a]) sm.id
      ctx.schedule.startDate =
      countTrailingNights ctx.previousPeriodEnd sm.id ctx.schedule.startDate :=
    countTrailingSortDesc_snoc_non hsh sm.id _
  have hst : findConsecutiveNightStart (ctx.previousPeriodEnd ++ [a]) sm.id
      ctx.schedule.startDate =
      findConsecutiveNightStart ctx.previousPeriodEnd sm.id ctx.schedule.startDate :=
    findTrailingSortDesc_snoc_non hsh sm.id _ none
  rw [hseed, hst]
  refine consecutiveNightGo_congr _ ?_ _ _
  intro d hd
  refine getShift_snoc_mid fun hc => ?_
  have h1 := periodDates_lb hd
  have h2 := hc.2
  omega

theorem maxConsecutiveWork_check_snoc {ctx : ConstraintContext} {a : ShiftAssignment}
    (hsh : a.shift = Shift.OFF)
    (hun : ∀ b ∈ ctx.previousPeriodEnd, ¬(b.staffId = a.staffId ∧ b.date = a.date))
    (hlt : a.date < ctx.schedule.startDate) :
    maxConsecutiveWorkConstraint.check
        {ctx with previousPeriodEnd := ctx.previousPeriodEnd ++ [a]} =
      maxConsecutiveWorkConstraint.check ctx := by
  simp only [maxConsecutiveWorkConstraint]
  by_cases henb : (!ctx.config.softConstraints.maxConsecutiveWork.enabled) = true
  · rw [if_pos henb, if_pos henb]
  · rw [if_neg henb, if_neg henb]
    refine checkResult_eq (List.flatMap_congr fun sm _ => ?_)
    have hsb : ∀ d : Int, shiftByDate (ctx.previousPeriodEnd ++ [a]) sm.id d =
        shiftByDate ctx.previousPeriodEnd sm.id d ∨
        (shiftByDate ctx.previousPeriodEnd sm.id d = none ∧
          shiftByDate (ctx.previousPeriodEnd ++ [a]) sm.id d = some Shift.OFF) := by
      intro d
      rw [shiftByDate_append]
      by_cases hc : a.staffId = sm.id ∧ a.date = d
      · right
        refine ⟨shiftByDate_none_of_unassigned fun b hb hbc => hun b hb
          ⟨hbc.1.trans hc.1.symm, hbc.2.trans hc.2.symm⟩, ?_⟩
        rw [if_pos hc, hsh]
      · left
        rw [if_neg hc]
    have hseed : countTrailingWorkDays (ctx.previousPeriodEnd ++ [a]) sm.id
        ctx.schedule.startDate =
        countTrailingWorkDays ctx.previousPeriodEnd sm.id ctx.schedule.startDate :=
      countTrailingWorkGo_congr hsb 7 _
    have hst : findConsecutiveWorkStart (ctx.previousPeriodEnd ++ [a]) sm.id
        ctx.schedule.startDate =
        findConsecutiveWorkStart ctx.previousPeriodEnd sm.id ctx.schedule.startDate :=
      findConsecutiveWorkStartGo_congr hsb 7 _ none
    rw [hseed, hst]
    refine maxConsecutiveWorkGo_congr _ ?_ _ _
    intro d hd
    refine getShift_snoc_mid fun hc => ?_
    have h1 := periodDates_lb hd
    have h2 := hc.2
    omega

theorem maxConsecutiveOff_check_snoc {ctx : ConstraintContext} {a : ShiftAssignment}
    (hsh : a.shift ≠ Shift.OFF) (hlt : a.date < ctx.schedule.startDate) :
    maxConsecutiveOffConstraint.check
        {ctx with previousPeriodEnd := ctx.previousPeriodEnd ++ [a]} =
      maxConsecutiveOffConstraint.check ctx := by
  simp only [maxConsecutiveOffConstraint]
  by_cases henb : (!ctx.config.softConstraints.maxConsecutiveOff.enabled) = true
  · rw [if_pos henb, if_pos henb]
  · rw [if_neg henb, if_neg henb]
    refine checkResult_eq (List.flatMap_congr fun sm _ => ?_)
    have hseed : countTrailingOffDays (ctx.previousPeriodEnd ++ [a]) sm.id
        ctx.schedule.startDate =
        countTrailingOffDays ctx.previousPeriodEnd sm.id ctx.schedule.startDate :=
      countTrailingSortDesc_snoc_non hsh sm.id _
    have hst : findConsecutiveOffStart (ctx.previousPeriodEnd ++ [a]) sm.id
        ctx.schedule.startDate =
        findConsecutiveOffStart ctx.previousPeriodEnd sm.id ctx.schedule.startDate :=
      findTrailingSortDesc_snoc_non hsh sm.id _ none
    rw [hseed, hst]
    refine maxConsecutiveOffGo_congr _ ?_ _ _
    intro d hd
    refine getShift_snoc_mid fun hc => ?_
    have h1 := periodDates_lb hd
    have h2 := hc.2
    omega

/-! ## Claim C7 -/

/-- Claim C7, counterexample to the invariance half for
`max-same-shift-consecutive`: the added OFF assignment satisfies no
same-shift streak predicate (OFF is not in `WORK_SHIFT_TYPES`), lands on
a previously unassigned date strictly before the period start, yet the
constraint's output on the current period changes — the positional
trailing-run seed of the source ignores the date gap between 01-04 and
01-06, so the untouched trail seeds 2 and reaches 5 on 01-09, while the
extended trail ends in OFF and seeds 0. -/
theorem maxSameShift_gap_extension_changes_output :
    addedC7.shift ∉ WORK_SHIFT_TYPES ∧
    (∀ b ∈ ctxC7a.previousPeriodEnd,
      ¬(b.staffId = addedC7.staffId ∧ b.date = addedC7.date)) ∧
    addedC7.date < ctxC7a.schedule.startDate ∧
    maxSameShiftConsecutiveConstraint.check ctxC7b ≠
      maxSameShiftConsecutiveConstraint.check ctxC7a := by
  decide

/-- Claim C7 (amended): extending the previous-period trail with an
assignment `a` on a previously unassigned date strictly before the period
start is boundary-monotone for the three date-aware consecutive
constraints — a non-satisfying shift leaves `consecutive-night`,
`max-consecutive-work` and `max-consecutive-off` output unchanged — and
the day-0 streak seed of all four constraints (including the positional
`max-same-shift-consecutive` seed) never decreases under a satisfying
shift; but the output-invariance half fails for
`max-same-shift-consecutive`, whose positional seed can change when a
non-satisfying assignment fills a date gap in the trail. -/
theorem boundary_monotonicity (ctx : ConstraintContext) (a : ShiftAssignment)
    (hun : ∀ b ∈ ctx.previousPeriodEnd, ¬(b.staffId = a.staffId ∧ b.date = a.date))
    (hlt : a.date < ctx.schedule.startDate) :
    (a.shift ≠ Shift.N →
      consecutiveNightConstraint.check
          {ctx with previousPeriodEnd := ctx.previousPeriodEnd ++ [a]} =
        consecutiveNightConstraint.check ctx) ∧
    (a.shift = Shift.OFF →
      maxConsecutiveWorkConstraint.check
          {ctx with previousPeriodEnd := ctx.previousPeriodEnd ++ [a]} =
        maxConsecutiveWorkConstraint.check ctx) ∧
    (a.shift ≠ Shift.OFF →
      maxConsecutiveOffConstraint.check
          {ctx with previousPeriodEnd := ctx.previousPeriodEnd ++ [a]} =
        maxConsecutiveOffConstraint.check ctx) ∧
    (∀ sid : String, a.shift = Shift.N →
      countTrailingNights ctx.previousPeriodEnd sid ctx.schedule.startDate ≤
        countTrailingNights (ctx.previousPeriodEnd ++ [a]) sid ctx.schedule.startDate) ∧
    (∀ sid : String, a.shift ≠ Shift.OFF →
      countTrailingWorkDays ctx.previousPeriodEnd sid ctx.schedule.startDate ≤
        countTrailingWorkDays (ctx.previousPeriodEnd ++ [a]) sid ctx.schedule.startDate) ∧
    (∀ sid : String, a.shift = Shift.OFF →
      countTrailingOffDays ctx.previousPeriodEnd sid ctx.schedule.startDate ≤
        countTrailingOffDays (ctx.previousPeriodEnd ++ [a]) sid ctx.schedule.startDate) ∧
    (∀ (sid : String) (t : Shift), a.shift = t →
      (if ctx.previousPeriodEnd.length > 0 then
        trailingSameShift t (sortAsc (ctx.previousPeriodEnd.filter fun x => x.staffId == sid))
      else 0) ≤
      (if (ctx.previousPeriodEnd ++ [a]).length > 0 then
        trailingSameShift t
          (sortAsc ((ctx.previousPeriodEnd ++ [a]).filter fun x => x.staffId == sid))
      else 0)) := by
  refine ⟨fun hsh => consecutiveNight_check_snoc hsh hlt,
    fun hsh => maxConsecutiveWork_check_snoc hsh hun hlt,
    fun hsh => maxConsecutiveOff_check_snoc hsh hlt,
    fun sid hshift => countTrailingSortDesc_snoc_le hshift sid _,
    fun sid hshift => ?_,
    fun sid hshift => countTrailingSortDesc_snoc_le hshift sid _,
    fun sid t hshift => ?_⟩
  · refine countTrailingWorkGo_le ?_ 7 _
    intro d
    rw [shiftByDate_append]
    by_cases hc : a.staffId = sid ∧ a.date = d
    · right
      exact ⟨shiftByDate_none_of_unassigned fun b hb hbc => hun b hb
          ⟨hbc.1.trans hc.1.symm, hbc.2.trans hc.2.symm⟩,
        a.shift, hshift, by rw [if_pos hc]⟩
    · left
      rw [if_neg hc]
  · have hlen2 : (ctx.previousPeriodEnd ++ [a]).length > 0 := by simp
    rw [if_pos hlen2]
    by_cases hl : ctx.previousPeriodEnd.length > 0
    · rw [if_pos hl]
      by_cases hs : a.staffId = sid
      · rw [filter_staff_append_self hs, sortAsc_append_singleton]
        exact trailingSameShift_le_insertAsc hshift _
      · rw [filter_staff_append_other hs]
    · rw [if_neg hl]
      exact Nat.zero_le _

/-- Witness for the amended Claim C7 at the counterexample trail (N on
01-03 and 01-04, OFF added on the unassigned 01-05 before the 01-06
period start): the hypotheses hold by evaluation and the conclusion is
the theorem's. -/
theorem boundary_monotonicity_witness :
    (∀ b ∈ ctxC7a.previousPeriodEnd,
      ¬(b.staffId = addedC7.staffId ∧ b.date = addedC7.date)) ∧
    addedC7.date < ctxC7a.schedule.startDate ∧
    ((addedC7.shift ≠ Shift.N →
      consecutiveNightConstraint.check
          {ctxC7a with previousPeriodEnd := ctxC7a.previousPeriodEnd ++ [addedC7]} =
        consecutiveNightConstraint.check ctxC7a) ∧
    (addedC7.shift = Shift.OFF →
      maxConsecutiveWorkConstraint.check
          {ctxC7a with previousPeriodEnd := ctxC7a.previousPeriodEnd ++ [addedC7]} =
        maxConsecutiveWorkConstraint.check ctxC7a) ∧
    (addedC7.shift ≠ Shift.OFF →
      maxConsecutiveOffConstraint.check
          {ctxC7a with previousPeriodEnd := ctxC7a.previousPeriodEnd ++ [addedC7]} =
        maxConsecutiveOffConstraint.check ctxC7a) ∧
    (∀ sid : String, addedC7.shift = Shift.N →
      countTrailingNights ctxC7a.previousPeriodEnd sid ctxC7a.schedule.startDate ≤
        countTrailingNights (ctxC7a.previousPeriodEnd ++ [addedC7]) sid
          ctxC7a.schedule.startDate) ∧
    (∀ sid : String, addedC7.shift ≠ Shift.OFF →
      countTrailingWorkDays ctxC7a.previousPeriodEnd sid ctxC7a.schedule.startDate ≤
        countTrailingWorkDays (ctxC7a.previousPeriodEnd ++ [addedC7]) sid
          ctxC7a.schedule.startDate) ∧
    (∀ sid : String, addedC7.shift = Shift.OFF →
      countTrailingOffDays ctxC7a.previousPeriodEnd sid ctxC7a.schedule.startDate ≤
        countTrailingOffDays (ctxC7a.previousPeriodEnd ++ [addedC7]) sid
          ctxC7a.schedule.startDate) ∧
    (∀ (sid : String) (t : Shift), addedC7.shift = t →
      (if ctxC7a.previousPeriodEnd.length > 0 then
        trailingSameShift t
          (sortAsc (ctxC7a.previousPeriodEnd.filter fun x => x.staffId == sid))
      else 0) ≤
      (if (ctxC7a.previousPeriodEnd ++ [addedC7]).length > 0 then
        trailingSameShift t
          (sortAsc ((ctxC7a.previousPeriodEnd ++ [addedC7]).filter fun x =>
            x.staffId == sid))
      else 0))) :=
  ⟨by decide, by decide, boundary_monotonicity ctxC7a addedC7 (by decide) (by decide)⟩

end ShiftSchedule
